import Mathlib

/-!
# TCP chat server: protocol and connection worker

A shallow embedding of `protocol/protocol.go` and `server/server.go`.

* Go strings and byte slices are lists of byte values (`GoString`); every literal of
  the program is written with `goStr`, which gives its UTF-8 bytes.
* `encoding/json` and `unicode/utf8` are library code the program calls; the parts the
  two records `Message` and `Response` exercise (`Marshal` and `Unmarshal` of a struct
  of string and bool fields) are embedded in the namespaces `utf8` and `json`, byte by
  byte, after the behaviour of the Go standard library.
* Loops that advance by a computed number of bytes take the remaining length as fuel;
  every pass consumes at least one byte, so the fuel never runs out first.
* The shared `Server` value is threaded explicitly through every operation; what a
  goroutine writes to a connection is recorded per connection in `Server.sent`.
* What a JSON text is, is stated apart from the decoder, as the grammar of RFC 8259
  (namespace `rfc8259`); the scanner of `encoding/json` is proved to accept exactly
  the texts of this grammar.
-/

set_option autoImplicit false

/-- A Go `string` / `[]byte`: a sequence of bytes, each a natural number below 256. -/
abbrev GoString := List Nat

/-! ## unicode/utf8 -/

namespace utf8

/-- The "error" rune U+FFFD. -/
def RuneError : Nat := 0xFFFD

/-- Characters below `RuneSelf` are represented as themselves in a single byte. -/
def RuneSelf : Nat := 0x80

/-- Maximum valid Unicode code point. -/
def MaxRune : Nat := 0x10FFFF

/-- `utf8.AppendRune` on an empty slice: the UTF-8 encoding of the rune `r`
(given as its `uint32` value). `byte(x)` is `x % 256`. -/
def EncodeRune (r : Nat) : List Nat :=
  if r ≤ 0x7F then [r % 256]
  else if r ≤ 0x7FF then
    [0xC0 ||| ((r >>> 6) % 256), 0x80 ||| ((r % 256) &&& 0x3F)]
  else if r > MaxRune ∨ (0xD800 ≤ r ∧ r ≤ 0xDFFF) then
    [0xEF, 0xBF, 0xBD]
  else if r ≤ 0xFFFF then
    [0xE0 ||| ((r >>> 12) % 256), 0x80 ||| (((r >>> 6) % 256) &&& 0x3F),
     0x80 ||| ((r % 256) &&& 0x3F)]
  else
    [0xF0 ||| ((r >>> 18) % 256), 0x80 ||| (((r >>> 12) % 256) &&& 0x3F),
     0x80 ||| (((r >>> 6) % 256) &&& 0x3F), 0x80 ||| ((r % 256) &&& 0x3F)]

/-- The table `first` together with `acceptRanges`: for a leading byte of a multi-byte
sequence, the length of the sequence and the accepted range of the second byte;
`none` for the bytes marked `xx` (0x80-0xC1 and 0xF5-0xFF). -/
def first (p0 : Nat) : Option (Nat × Nat × Nat) :=
  if 0xC2 ≤ p0 ∧ p0 ≤ 0xDF then some (2, 0x80, 0xBF)
  else if p0 = 0xE0 then some (3, 0xA0, 0xBF)
  else if 0xE1 ≤ p0 ∧ p0 ≤ 0xEC then some (3, 0x80, 0xBF)
  else if p0 = 0xED then some (3, 0x80, 0x9F)
  else if 0xEE ≤ p0 ∧ p0 ≤ 0xEF then some (3, 0x80, 0xBF)
  else if p0 = 0xF0 then some (4, 0x90, 0xBF)
  else if 0xF1 ≤ p0 ∧ p0 ≤ 0xF3 then some (4, 0x80, 0xBF)
  else if p0 = 0xF4 then some (4, 0x80, 0x8F)
  else none

/-- `utf8.DecodeRune`: the first rune of `p` and its width in bytes; `(RuneError, 0)`
for empty input and `(RuneError, 1)` for an invalid encoding. -/
def DecodeRune (p : List Nat) : Nat × Nat :=
  match p with
  | [] => (RuneError, 0)
  | p0 :: t =>
    if p0 < RuneSelf then (p0, 1)
    else
      match first p0 with
      | none => (RuneError, 1)
      | some (sz, lo, hi) =>
        match t with
        | [] => (RuneError, 1)
        | b1 :: t1 =>
          if b1 < lo ∨ hi < b1 then (RuneError, 1)
          else if sz ≤ 2 then (((p0 &&& 0x1F) <<< 6) ||| (b1 &&& 0x3F), 2)
          else
            match t1 with
            | [] => (RuneError, 1)
            | b2 :: t2 =>
              if b2 < 0x80 ∨ 0xBF < b2 then (RuneError, 1)
              else if sz ≤ 3 then
                (((p0 &&& 0x0F) <<< 12) ||| ((b1 &&& 0x3F) <<< 6) ||| (b2 &&& 0x3F), 3)
              else
                match t2 with
                | [] => (RuneError, 1)
                | b3 :: _ =>
                  if b3 < 0x80 ∨ 0xBF < b3 then (RuneError, 1)
                  else
                    (((p0 &&& 0x07) <<< 18) ||| ((b1 &&& 0x3F) <<< 12)
                      ||| ((b2 &&& 0x3F) <<< 6) ||| (b3 &&& 0x3F), 4)

/-- Loop of `utf8.Valid`, with the remaining length as fuel. -/
def validAux : Nat → List Nat → Bool
  | 0, p => p.isEmpty
  | fuel + 1, p =>
    match p with
    | [] => true
    | _ :: _ =>
      let (r, size) := DecodeRune p
      if r = RuneError ∧ size = 1 then false else validAux fuel (p.drop size)

/-- `utf8.Valid`: whether `p` consists entirely of valid UTF-8-encoded runes. -/
def Valid (p : List Nat) : Bool := validAux p.length p

end utf8

/-- The bytes of a string literal of the program (Go source text is UTF-8). -/
def goStr (s : String) : GoString := s.toList.flatMap (fun c => utf8.EncodeRune c.toNat)

/-! ## encoding/json: encoding -/

namespace json

/-- The table `hex = "0123456789abcdef"`, indexed by a value below 16. -/
def hex (n : Nat) : Nat := if n < 10 then 48 + n else 87 + n

/-- The table `htmlSafeSet`, for a byte below `utf8.RuneSelf`: every byte from the space
on except the double quote, the backslash and the HTML characters `<`, `>`, `&`. -/
def htmlSafeSet (b : Nat) : Bool :=
  decide (0x20 ≤ b ∧ b ≠ 34 ∧ b ≠ 92 ∧ b ≠ 60 ∧ b ≠ 62 ∧ b ≠ 38)

/-- One iteration of the loop of `appendString` (with `escapeHTML`, as `Marshal` sets
it): the bytes that end up in the output for the rune at the head of `src`, and the
number of input bytes consumed. The short escapes of backspace and form feed are those
of Go 1.22 and later; earlier releases write the six-byte hexadecimal escape for these
two bytes, which unquotes to the same byte. -/
def quoteStep (src : List Nat) : List Nat × Nat :=
  match src with
  | [] => ([], 0)
  | b :: _ =>
    if b < utf8.RuneSelf then
      if htmlSafeSet b then ([b], 1)
      else if b = 92 ∨ b = 34 then ([92, b], 1)
      else if b = 8 then ([92, 98], 1)
      else if b = 12 then ([92, 102], 1)
      else if b = 10 then ([92, 110], 1)
      else if b = 13 then ([92, 114], 1)
      else if b = 9 then ([92, 116], 1)
      else ([92, 117, 48, 48, hex (b >>> 4), hex (b &&& 0xF)], 1)
    else
      let (c, size) := utf8.DecodeRune (src.take 4)
      if c = utf8.RuneError ∧ size = 1 then ([92, 117, 102, 102, 102, 100], 1)
      else if c = 0x2028 ∨ c = 0x2029 then ([92, 117, 50, 48, 50, hex (c &&& 0xF)], size)
      else (src.take size, size)

/-- The loop of `appendString`, with the remaining length as fuel. -/
def quoteAux : Nat → List Nat → List Nat
  | 0, _ => []
  | fuel + 1, src =>
    match src with
    | [] => []
    | _ :: _ => (quoteStep src).1 ++ quoteAux fuel (src.drop (quoteStep src).2)

/-- The text between the quotes of the JSON string literal for `src`. -/
def quoteBody (src : List Nat) : List Nat := quoteAux src.length src

/-- `appendString(dst, src, true)`: `src` as a JSON string literal appended to `dst`. -/
def appendString (dst src : List Nat) : List Nat := dst ++ 34 :: (quoteBody src ++ [34])

/-- The encoding of a `bool`. -/
def appendBool (dst : List Nat) (b : Bool) : List Nat :=
  dst ++ (if b then goStr "true" else goStr "false")

/-! ## encoding/json: decoding -/

/-- The scanner nests arrays and objects at most this deep. -/
def maxNestingDepth : Nat := 10000

/-- The errors `Unmarshal` returns for a struct of string and bool fields: a
`*SyntaxError` from `checkValid`, or the first saved `*UnmarshalTypeError`, with the
description of the JSON value that did not fit. -/
inductive Error
  | SyntaxError
  | UnmarshalTypeError (value : String)
  deriving DecidableEq, Repr

/-- A scanned JSON value. A string carries the bytes between its quotes, not yet
unquoted. -/
inductive Value
  | null
  | bool (b : Bool)
  | number
  | string (body : List Nat)
  | array (elems : List Value)
  | object (members : List (List Nat × Value))

/-- The scanner's `isSpace`. -/
def isSpace (c : Nat) : Bool := decide (c = 32 ∨ c = 9 ∨ c = 13 ∨ c = 10)

/-- Skipping of insignificant space (`scanSkipSpace`). -/
def skipSpace : List Nat → List Nat
  | [] => []
  | c :: t => if isSpace c then skipSpace t else c :: t

/-- A decimal digit. -/
def isDigit (c : Nat) : Bool := decide (48 ≤ c ∧ c ≤ 57)

/-- A hexadecimal digit, as the scanner accepts it after a backslash and `u`. -/
def isHex (c : Nat) : Bool :=
  decide ((48 ≤ c ∧ c ≤ 57) ∨ (97 ≤ c ∧ c ≤ 102) ∨ (65 ≤ c ∧ c ≤ 70))

/-- Scanner states `stateInString`, `stateInStringEsc` and `stateInStringEscU*`: the
input after an opening quote is split into the body of the literal and what follows
its closing quote. -/
def scanString : List Nat → Option (List Nat × List Nat)
  | [] => none
  | c :: t =>
    if c = 34 then some ([], t)
    else if c = 92 then
      match t with
      | [] => none
      | e :: t1 =>
        if e = 98 ∨ e = 102 ∨ e = 110 ∨ e = 114 ∨ e = 116 ∨ e = 92 ∨ e = 47 ∨ e = 34 then
          (scanString t1).map (fun r => (92 :: e :: r.1, r.2))
        else if e = 117 then
          match t1 with
          | h1 :: h2 :: h3 :: h4 :: t2 =>
            if isHex h1 ∧ isHex h2 ∧ isHex h3 ∧ isHex h4 then
              (scanString t2).map (fun r => (92 :: 117 :: h1 :: h2 :: h3 :: h4 :: r.1, r.2))
            else none
          | _ => none
        else none
    else if c < 0x20 then none
    else (scanString t).map (fun r => (c :: r.1, r.2))

/-- Skipping of a run of digits (states `state1`, `stateDot0`, `stateE0`). -/
def skipDigits : List Nat → List Nat
  | [] => []
  | c :: t => if isDigit c then skipDigits t else c :: t

/-- The optional exponent of a number (states `stateE`, `stateESign`, `stateE0`). -/
def scanExp (s : List Nat) : Option (List Nat) :=
  match s with
  | [] => some s
  | c :: t =>
    if c = 101 ∨ c = 69 then
      match t with
      | [] => none
      | g :: t1 =>
        if g = 43 ∨ g = 45 then
          match t1 with
          | [] => none
          | d :: t2 => if isDigit d then some (skipDigits t2) else none
        else if isDigit g then some (skipDigits t1)
        else none
    else some s

/-- The optional fraction of a number (states `stateDot`, `stateDot0`), then the
exponent. -/
def scanFrac (s : List Nat) : Option (List Nat) :=
  match s with
  | [] => some s
  | c :: t =>
    if c = 46 then
      match t with
      | [] => none
      | d :: t1 => if isDigit d then scanExp (skipDigits t1) else none
    else scanExp s

/-- The integer part of a number (states `state0`, `state1`), then the rest. -/
def scanInt (s : List Nat) : Option (List Nat) :=
  match s with
  | [] => none
  | d :: t =>
    if d = 48 then scanFrac t
    else if 49 ≤ d ∧ d ≤ 57 then scanFrac (skipDigits t)
    else none

/-- A number literal (state `stateNeg` for the sign): what follows it. -/
def scanNumber (s : List Nat) : Option (List Nat) :=
  match s with
  | [] => none
  | c :: t => if c = 45 then scanInt t else scanInt s

/-- The rest of a literal name (`true`, `false`, `null`) after its first letter. -/
def expect : List Nat → List Nat → Option (List Nat)
  | [], s => some s
  | _ :: _, [] => none
  | a :: l, c :: t => if a = c then expect l t else none

mutual

/-- State `stateBeginValue` at the first byte of a value: the value scanned and the
input after it. `depth` is the number of arrays and objects currently open. -/
def scanValue : Nat → Nat → List Nat → Option (Value × List Nat)
  | 0, _, _ => none
  | fuel + 1, depth, s =>
    match s with
    | [] => none
    | c :: t =>
      if c = 123 then
        if depth ≥ maxNestingDepth then none
        else
          match skipSpace t with
          | [] => none
          | c1 :: t1 =>
            if c1 = 125 then some (Value.object [], t1)
            else (scanMembers fuel (depth + 1) (c1 :: t1)).map
              (fun r => (Value.object r.1, r.2))
      else if c = 91 then
        if depth ≥ maxNestingDepth then none
        else
          match skipSpace t with
          | [] => none
          | c1 :: t1 =>
            if c1 = 93 then some (Value.array [], t1)
            else (scanElems fuel (depth + 1) (c1 :: t1)).map
              (fun r => (Value.array r.1, r.2))
      else if c = 34 then (scanString t).map (fun r => (Value.string r.1, r.2))
      else if c = 45 ∨ isDigit c then (scanNumber s).map (fun r => (Value.number, r))
      else if c = 116 then (expect [114, 117, 101] t).map (fun r => (Value.bool true, r))
      else if c = 102 then
        (expect [97, 108, 115, 101] t).map (fun r => (Value.bool false, r))
      else if c = 110 then (expect [117, 108, 108] t).map (fun r => (Value.null, r))
      else none

/-- The members of an object from the opening quote of a key on (state
`stateBeginString`), up to and including the closing brace. -/
def scanMembers : Nat → Nat → List Nat → Option (List (List Nat × Value) × List Nat)
  | 0, _, _ => none
  | fuel + 1, depth, s =>
    match s with
    | [] => none
    | c :: t =>
      if c = 34 then
        match scanString t with
        | none => none
        | some (key, r) =>
          match skipSpace r with
          | [] => none
          | c2 :: r2 =>
            if c2 = 58 then
              match scanValue fuel depth (skipSpace r2) with
              | none => none
              | some (v, r3) =>
                match skipSpace r3 with
                | [] => none
                | c4 :: r4 =>
                  if c4 = 44 then
                    (scanMembers fuel depth (skipSpace r4)).map
                      (fun m => ((key, v) :: m.1, m.2))
                  else if c4 = 125 then some ([(key, v)], r4)
                  else none
            else none
      else none

/-- The elements of an array from the first byte of an element on, up to and
including the closing bracket. -/
def scanElems : Nat → Nat → List Nat → Option (List Value × List Nat)
  | 0, _, _ => none
  | fuel + 1, depth, s =>
    match scanValue fuel depth s with
    | none => none
    | some (v, r) =>
      match skipSpace r with
      | [] => none
      | c :: r1 =>
        if c = 44 then
          (scanElems fuel depth (skipSpace r1)).map (fun m => (v :: m.1, m.2))
        else if c = 93 then some ([v], r1)
        else none

end

/-- `checkValid` together with the scan of `decodeState`: the single JSON value that
`data` holds, surrounded by optional space; `none` is a `*SyntaxError`. Every call
of the scanners above consumes a byte, so the length of `data` is fuel enough. -/
def checkValid (data : List Nat) : Option Value :=
  match scanValue (data.length + 1) 0 (skipSpace data) with
  | none => none
  | some (v, r) => if skipSpace r = [] then some v else none

/-- The value of a hexadecimal digit, `none` for any other byte. -/
def hexVal (c : Nat) : Option Nat :=
  if 48 ≤ c ∧ c ≤ 57 then some (c - 48)
  else if 97 ≤ c ∧ c ≤ 102 then some (c - 97 + 10)
  else if 65 ≤ c ∧ c ≤ 70 then some (c - 65 + 10)
  else none

/-- `getu4`: the rune of a hexadecimal escape (a backslash, `u` and four hexadecimal
digits) at the head of `s`; `none` stands for the result -1. -/
def getu4 (s : List Nat) : Option Nat :=
  match s with
  | c0 :: c1 :: a :: b :: c :: d :: _ =>
    if c0 = 92 ∧ c1 = 117 then
      match hexVal a, hexVal b, hexVal c, hexVal d with
      | some x, some y, some z, some w => some (((x * 16 + y) * 16 + z) * 16 + w)
      | _, _, _, _ => none
    else none
  | _ => none

/-- `utf16.IsSurrogate`. -/
def isSurrogate (r : Nat) : Bool := decide (0xD800 ≤ r ∧ r < 0xE000)

/-- `utf16.DecodeRune`: the code point of a surrogate pair, U+FFFD if the pair is not
valid (`none` is the rune -1). -/
def utf16DecodeRune (r1 : Nat) (r2 : Option Nat) : Nat :=
  match r2 with
  | none => 0xFFFD
  | some r2 =>
    if 0xD800 ≤ r1 ∧ r1 < 0xDC00 ∧ 0xDC00 ≤ r2 ∧ r2 < 0xE000 then
      (((r1 - 0xD800) <<< 10) ||| (r2 - 0xDC00)) + 0x10000
    else 0xFFFD

/-- The first loop of `unquoteBytes`: the length of the longest prefix of the body
that needs no unquoting (no backslash, quote or control character and no invalid
UTF-8). -/
def plainLen : Nat → List Nat → Nat
  | 0, _ => 0
  | fuel + 1, s =>
    match s with
    | [] => 0
    | c :: t =>
      if c = 92 ∨ c = 34 ∨ c < 0x20 then 0
      else if c < utf8.RuneSelf then 1 + plainLen fuel t
      else
        let (rr, size) := utf8.DecodeRune s
        if rr = utf8.RuneError ∧ size = 1 then 0
        else size + plainLen fuel (s.drop size)

/-- One iteration of the second loop of `unquoteBytes`: the bytes written and the
number of bytes read; `none` is the result `ok = false`. -/
def unquoteStep (s : List Nat) : Option (List Nat × Nat) :=
  match s with
  | [] => some ([], 0)
  | c :: t =>
    if c = 92 then
      match t with
      | [] => none
      | e :: _ =>
        if e = 34 ∨ e = 92 ∨ e = 47 ∨ e = 39 then some ([e], 2)
        else if e = 98 then some ([8], 2)
        else if e = 102 then some ([12], 2)
        else if e = 110 then some ([10], 2)
        else if e = 114 then some ([13], 2)
        else if e = 116 then some ([9], 2)
        else if e = 117 then
          match getu4 s with
          | none => none
          | some rr =>
            if isSurrogate rr then
              let dec := utf16DecodeRune rr (getu4 (s.drop 6))
              if dec ≠ 0xFFFD then some (utf8.EncodeRune dec, 12)
              else some (utf8.EncodeRune 0xFFFD, 6)
            else some (utf8.EncodeRune rr, 6)
        else none
    else if c = 34 ∨ c < 0x20 then none
    else if c < utf8.RuneSelf then some ([c], 1)
    else
      let (rr, size) := utf8.DecodeRune s
      some (utf8.EncodeRune rr, size)

/-- The second loop of `unquoteBytes`, with the remaining length as fuel. -/
def unquoteAux : Nat → List Nat → Option (List Nat)
  | 0, _ => some []
  | fuel + 1, s =>
    match s with
    | [] => some []
    | _ :: _ =>
      match unquoteStep s with
      | none => none
      | some (out, n) => (unquoteAux fuel (s.drop n)).map (fun r => out ++ r)

/-- `unquoteBytes` on the body of a string literal (the literal without its two
quotes): the string it denotes. The plain prefix is copied, the rest is unquoted byte
by byte, and invalid UTF-8 is coerced to U+FFFD. -/
def unquoteBytes (s : List Nat) : Option (List Nat) :=
  let r := plainLen s.length s
  (unquoteAux s.length (s.drop r)).map (fun t => s.take r ++ t)

/-- The kinds of struct field the two records have. -/
inductive FieldKind
  | string
  | bool
  deriving DecidableEq, Repr

/-- A value stored into a struct field. -/
inductive FieldValue
  | string (s : GoString)
  | bool (b : Bool)
  deriving DecidableEq, Repr

/-- `foldRune` for the purpose of comparing with an ASCII field name: the only
non-ASCII runes whose fold orbit holds an ASCII letter are U+017F (with `S`) and
U+212A (with `K`); any other rune folds to a non-ASCII rune and is left as it is. -/
def foldRune (r : Nat) : Nat :=
  if r = 0x17F then 83 else if r = 0x212A then 75 else r

/-- The loop of `appendFoldedName`, with the remaining length as fuel. -/
def foldAux : Nat → List Nat → List Nat
  | 0, _ => []
  | fuel + 1, s =>
    match s with
    | [] => []
    | c :: t =>
      if c < utf8.RuneSelf then
        (if 97 ≤ c ∧ c ≤ 122 then c - 32 else c) :: foldAux fuel t
      else
        let (r, n) := utf8.DecodeRune s
        utf8.EncodeRune (foldRune r) ++ foldAux fuel (s.drop n)

/-- `foldName`: a folded name such that two names fold alike exactly when they are
equal under Unicode case folding. -/
def foldName (s : List Nat) : List Nat := foldAux s.length s

/-- The field an object key names: the field whose JSON name is exactly the key
(`byExactName`), otherwise the first one with the same folded name (`byFoldedName`).
The result is the index and the kind of the field. -/
def lookupField (fields : List (GoString × FieldKind)) (key : GoString) :
    Option (Nat × FieldKind) :=
  match fields.findIdx? (fun f => f.1 == key) with
  | some i => (fields.get? i).map (fun f => (i, f.2))
  | none =>
    match fields.findIdx? (fun f => foldName f.1 == foldName key) with
    | some i => (fields.get? i).map (fun f => (i, f.2))
    | none => none

/-- What decoding has done so far: the stores into fields, oldest first, and the
first saved error (`d.savedError`). -/
structure Decoded where
  stores : List (Nat × FieldValue)
  savedError : Option Error
  deriving DecidableEq, Repr

/-- `saveError`: only the first error is kept. -/
def Decoded.saveError (d : Decoded) (e : Error) : Decoded :=
  match d.savedError with
  | none => { d with savedError := some e }
  | some _ => d

/-- Decoding of one value into field `i` of kind `k` (`d.value` with `literalStore`,
`d.array` and `d.object` on a string or bool field): a value of the right type is
stored, `null` is ignored, anything else saves an `UnmarshalTypeError` and is
skipped. -/
def Decoded.storeValue (d : Decoded) (i : Nat) (k : FieldKind) (v : Value) : Decoded :=
  match v with
  | Value.null => d
  | Value.bool b =>
    match k with
    | FieldKind.bool => { d with stores := d.stores ++ [(i, FieldValue.bool b)] }
    | FieldKind.string => d.saveError (Error.UnmarshalTypeError "bool")
  | Value.number => d.saveError (Error.UnmarshalTypeError "number")
  | Value.string body =>
    match k with
    | FieldKind.string =>
      match unquoteBytes body with
      | some s => { d with stores := d.stores ++ [(i, FieldValue.string s)] }
      | none => d
    | FieldKind.bool => d.saveError (Error.UnmarshalTypeError "string")
  | Value.array _ => d.saveError (Error.UnmarshalTypeError "array")
  | Value.object _ => d.saveError (Error.UnmarshalTypeError "object")

/-- The loop of `d.object` on a struct: each key is unquoted and looked up; the value
of a known field is decoded into it, the value of an unknown key is skipped. -/
def decodeMembers (fields : List (GoString × FieldKind)) :
    List (List Nat × Value) → Decoded → Decoded
  | [], d => d
  | (key, v) :: ms, d =>
    match unquoteBytes key with
    | none => decodeMembers fields ms d
    | some name =>
      match lookupField fields name with
      | none => decodeMembers fields ms d
      | some (i, k) => decodeMembers fields ms (d.storeValue i k v)

/-- `json.Unmarshal(data, v)` for `v` a pointer to a struct with the given fields
(JSON name and kind, in declaration order). `Except.error` is the `*SyntaxError` of
`checkValid`, returned before anything is stored; otherwise the stores performed and
the saved error, which `Unmarshal` returns after decoding the whole value. -/
def Unmarshal (fields : List (GoString × FieldKind)) (data : List Nat) :
    Except Error Decoded :=
  match checkValid data with
  | none => Except.error Error.SyntaxError
  | some v =>
    match v with
    | Value.object ms => Except.ok (decodeMembers fields ms ⟨[], none⟩)
    | Value.null => Except.ok ⟨[], none⟩
    | Value.bool _ => Except.ok ⟨[], some (Error.UnmarshalTypeError "bool")⟩
    | Value.number => Except.ok ⟨[], some (Error.UnmarshalTypeError "number")⟩
    | Value.string _ => Except.ok ⟨[], some (Error.UnmarshalTypeError "string")⟩
    | Value.array _ => Except.ok ⟨[], some (Error.UnmarshalTypeError "array")⟩

end json

/-! ## protocol/protocol.go -/

namespace protocol

/-- Message represents a structured message exchanged between client and server. -/
structure Message where
  Command : GoString
  Data : GoString
  From : GoString
  deriving DecidableEq, Repr

/-- Response represents the server's response to a client request. -/
structure Response where
  Success : Bool
  Message : GoString
  Data : GoString
  deriving DecidableEq, Repr

/-- The zero value of `Message` (`var msg protocol.Message`). -/
def Message.zero : Message := ⟨[], [], []⟩

/-- The zero value of `Response`. -/
def Response.zero : Response := ⟨false, [], []⟩

/-- Echo back the data (for testing). -/
def CmdEcho : GoString := goStr "ECHO"

/-- Register a username. -/
def CmdRegister : GoString := goStr "REGISTER"

/-- Send a chat message. -/
def CmdMessage : GoString := goStr "MESSAGE"

/-- Get list of online users. -/
def CmdListUsers : GoString := goStr "LIST_USERS"

/-- Get list of recent messages. -/
def CmdListMessages : GoString := goStr "LIST_MESSAGES"

/-- Get server time. -/
def CmdTime : GoString := goStr "TIME"

/-- Disconnect from server. -/
def CmdQuit : GoString := goStr "QUIT"

/-- NewMessage creates a new message with the given command and data. -/
def NewMessage (frm command data : GoString) : Message :=
  { From := frm, Command := command, Data := data }

/-- NewResponse creates a new response. -/
def NewResponse (success : Bool) (message data : GoString) : Response :=
  { Success := success, Message := message, Data := data }

/-- The bytes `json.Marshal` produces for a `Message`: the three fields in declaration
order under their JSON names. `Marshal` has no failing case for a struct of strings. -/
def Message.marshal (m : Message) : List Nat :=
  json.appendString
    (json.appendString
      (json.appendString (goStr "\x7b\"command\":") m.Command ++ goStr ",\"data\":")
      m.Data ++ goStr ",\"from\":")
    m.From ++ goStr "\x7d"

/-- The bytes `json.Marshal` produces for a `Response`. -/
def Response.marshal (r : Response) : List Nat :=
  json.appendString
    (json.appendString
      (json.appendBool (goStr "\x7b\"success\":") r.Success ++ goStr ",\"message\":")
      r.Message ++ goStr ",\"data\":")
    r.Data ++ goStr "\x7d"

/-- ToJSON converts a message to JSON bytes, with a newline delimiter appended. The
second component is the `error`, always `nil`. -/
def Message.ToJSON (m : Message) : List Nat × Option GoString :=
  (m.marshal ++ [10], none)

/-- ToJSON converts a response to JSON bytes, with a newline delimiter appended. -/
def Response.ToJSON (r : Response) : List Nat × Option GoString :=
  (r.marshal ++ [10], none)

/-- The fields of `Message` with their `json` tags. -/
def messageFields : List (GoString × json.FieldKind) :=
  [(goStr "command", json.FieldKind.string), (goStr "data", json.FieldKind.string),
   (goStr "from", json.FieldKind.string)]

/-- The fields of `Response` with their `json` tags. -/
def responseFields : List (GoString × json.FieldKind) :=
  [(goStr "success", json.FieldKind.bool), (goStr "message", json.FieldKind.string),
   (goStr "data", json.FieldKind.string)]

/-- A store of the decoder into a field of a `Message`. -/
def Message.store (m : Message) (st : Nat × json.FieldValue) : Message :=
  match st with
  | (0, json.FieldValue.string s) => { m with Command := s }
  | (1, json.FieldValue.string s) => { m with Data := s }
  | (2, json.FieldValue.string s) => { m with From := s }
  | _ => m

/-- A store of the decoder into a field of a `Response`. -/
def Response.store (r : Response) (st : Nat × json.FieldValue) : Response :=
  match st with
  | (0, json.FieldValue.bool b) => { r with Success := b }
  | (1, json.FieldValue.string s) => { r with Message := s }
  | (2, json.FieldValue.string s) => { r with Data := s }
  | _ => r

/-- FromJSON parses a message from JSON bytes into the receiver `m`. The result is the
receiver after the call and the `error` (`none` is `nil`; the error wraps the one of
`json.Unmarshal`, which is what is kept here). -/
def Message.FromJSON (m : Message) (data : List Nat) : Message × Option json.Error :=
  match json.Unmarshal messageFields data with
  | Except.error e => (m, some e)
  | Except.ok d => (d.stores.foldl Message.store m, d.savedError)

/-- FromJSON parses a response from JSON bytes into the receiver `r`. -/
def Response.FromJSON (r : Response) (data : List Nat) : Response × Option json.Error :=
  match json.Unmarshal responseFields data with
  | Except.error e => (r, some e)
  | Except.ok d => (d.stores.foldl Response.store r, d.savedError)

/-- Indexing a Go `map[string]bool`: the stored value, or `false` for a missing key. -/
def mapIndex (m : List (GoString × Bool)) (k : GoString) : Bool :=
  match m.find? (fun e => e.1 == k) with
  | some e => e.2
  | none => false

/-- The map literal `validCommands` of `Validate`. -/
def validCommands : List (GoString × Bool) :=
  [(CmdEcho, true), (CmdRegister, true), (CmdMessage, true), (CmdListUsers, true),
   (CmdListMessages, true), (CmdTime, true), (CmdQuit, true)]

/-- The map literal `requiresData` of `Validate`. -/
def requiresData : List (GoString × Bool) :=
  [(CmdEcho, true), (CmdRegister, true), (CmdMessage, true)]

/-- Validate checks if a message is valid. The result is the `error`: `none` is `nil`,
`some e` is an error whose text (`Error()`) is `e`. -/
def Message.Validate (m : Message) : Option GoString :=
  if m.Command = [] then some (goStr "command cannot be empty")
  else if !mapIndex validCommands m.Command then
    some (goStr "unknown command: " ++ m.Command)
  else if mapIndex requiresData m.Command && m.Data = [] then
    some (goStr "command " ++ m.Command ++ goStr " requires data")
  else none

end protocol

/-! ## server/server.go -/

namespace server

open protocol

/-- The identity of a `net.Conn`. -/
abbrev Conn := Nat

/-- A `time.Time`, as far as the program observes it: the wall clock reading that
`Format("15:04:05")` prints and the text `Format(time.RFC3339)` returns. -/
structure Time where
  hour : Fin 24
  minute : Fin 60
  second : Fin 60
  rfc3339 : GoString
  deriving DecidableEq, Repr

/-- A number below 100 printed with two decimal digits. -/
def twoDigits (n : Nat) : GoString := [48 + n / 10, 48 + n % 10]

/-- `t.Format("15:04:05")`. -/
def Time.FormatClock (t : Time) : GoString :=
  twoDigits t.hour ++ [58] ++ twoDigits t.minute ++ [58] ++ twoDigits t.second

/-- StoredMessage represents a stored chat message. -/
structure StoredMessage where
  From : GoString
  Content : GoString
  Timestamp : Time
  deriving DecidableEq, Repr

/-- Server, as far as the connection workers use it.
* `clients` holds the keys of the map `clients`, in the order a `range` over the map
  visits them (any order: the map has none of its own);
* `username c` is the `username` field of the `Client` that `acceptConnections`
  created for connection `c` (the value the map holds for `c` is a pointer to it);
* `messages` is the message history;
* `sent` records every `conn.Write`, oldest first, with the connection written to;
* `closed` records every `conn.Close`. -/
structure Server where
  clients : List Conn
  username : Conn → GoString
  messages : List StoredMessage
  sent : List (Conn × List Nat)
  closed : List Conn

/-- NewServer creates a new TCP server. -/
def NewServer : Server :=
  { clients := [], username := fun _ => [], messages := [], sent := [], closed := [] }

/-- What has been written to connection `c`, oldest first. -/
def Server.sentTo (s : Server) (c : Conn) : List (List Nat) :=
  (s.sent.filter (fun w => w.1 == c)).map (fun w => w.2)

/-- The body of the loop of `acceptConnections` for an accepted connection, up to the
start of the worker: the client object is created with the username "anonymous" and
added to the map. -/
def acceptConnection (s : Server) (conn : Conn) : Server :=
  { s with
    username := fun c => if c = conn then goStr "anonymous" else s.username c
    clients := if conn ∈ s.clients then s.clients else s.clients ++ [conn] }

/-- sendResponse sends a response to a client. -/
def sendResponse (s : Server) (client : Conn) (response : Response) : Server :=
  match response.ToJSON with
  | (_, some _) => s
  | (data, none) => { s with sent := s.sent ++ [(client, data)] }

/-- getConnectedUsers returns a list of connected usernames. -/
def getConnectedUsers (s : Server) : List GoString :=
  s.clients.map s.username

/-- storeMessage stores a message in the server history; `now` is `time.Now()`. -/
def storeMessage (s : Server) (frm content : GoString) (now : Time) : Server :=
  let msg : StoredMessage := { From := frm, Content := content, Timestamp := now }
  let messages := s.messages ++ [msg]
  if messages.length > 100 then
    { s with messages := messages.drop (messages.length - 100) }
  else { s with messages := messages }

/-- The text `fmt.Sprintf("[%s] %s: %s", ...)` gives for a stored message. -/
def formatMessage (msg : StoredMessage) : GoString :=
  [91] ++ msg.Timestamp.FormatClock ++ goStr "] " ++ msg.From ++ goStr ": " ++ msg.Content

/-- The formatting loop of `getRecentMessages`: `i` is the index of the next message
and `result` the content of the builder. -/
def formatLoop : Nat → List StoredMessage → GoString → GoString
  | _, [], result => result
  | i, msg :: rest, result =>
    formatLoop (i + 1) rest ((if i > 0 then result ++ [10] else result) ++ formatMessage msg)

/-- getRecentMessages returns the last N messages formatted as a string (for a
`count` that is not negative). -/
def getRecentMessages (s : Server) (count : Nat) : GoString :=
  if s.messages.length = 0 then goStr "No messages yet"
  else
    let start := if s.messages.length > count then s.messages.length - count else 0
    let recentMessages := s.messages.drop start
    formatLoop 0 recentMessages []

/-- `strings.Join(elems, sep)`. -/
def stringsJoin (elems : List GoString) (sep : GoString) : GoString :=
  match elems with
  | [] => []
  | e :: rest => e ++ rest.flatMap (fun x => sep ++ x)

/-- processCommand handles different command types; `now` is what `time.Now()` returns
during the call. The result is the server afterwards and the response. (The
assignment to `msg.From` is kept as the local `frm`.) -/
def processCommand (s : Server) (client : Conn) (msg : Message) (now : Time) :
    Server × Response :=
  if msg.Command = CmdEcho then
    (s, NewResponse true (goStr "Echo response") msg.Data)
  else if msg.Command = CmdRegister then
    ({ s with username := fun c => if c = client then msg.Data else s.username c },
     NewResponse true (goStr "Registration successful. Welcome, " ++ msg.Data ++ goStr "!") [])
  else if msg.Command = CmdMessage then
    let frm := s.username client
    (storeMessage s frm msg.Data now, NewResponse true (goStr "Message broadcasted") [])
  else if msg.Command = CmdListUsers then
    let users := getConnectedUsers s
    (s, NewResponse true (goStr "Online users") (stringsJoin users (goStr ", ")))
  else if msg.Command = CmdListMessages then
    let messages := getRecentMessages s 20
    (s, NewResponse true (goStr "Recent messages") messages)
  else if msg.Command = CmdTime then
    let serverTime := now.rfc3339
    (s, NewResponse true (goStr "Server time") serverTime)
  else if msg.Command = CmdQuit then
    (s, NewResponse true (goStr "Goodbye!") [])
  else
    (s, NewResponse false (goStr "Unknown command") [])

/-- `reader.ReadString(delim)` on the bytes still to come on the connection: the bytes
up to and including the first occurrence of `delim`, and the bytes left for the next
read; `none` when the stream ends before a delimiter (the read returns an error). -/
def ReadString (delim : Nat) : List Nat → Option (List Nat × List Nat)
  | [] => none
  | c :: t =>
    if c = delim then some ([c], t)
    else (ReadString delim t).map (fun r => (c :: r.1, r.2))

/-- The body of the loop of `handleClient` after `ReadString` has returned `line`
and the error `err`, taken when `err` is `nil`: the server after the command, the
response handed to `sendResponse`, and whether the loop goes on (`false` is the
`return` after QUIT). The first test is on `err`, the error of the read, as written in
the source; the error of `FromJSON` is only logged. -/
def handleMessage (s : Server) (client : Conn) (line : GoString) (err : Option GoString)
    (now : Time) : Server × Response × Bool :=
  let (msg, _v) := Message.zero.FromJSON line
  if err ≠ none then
    (s, NewResponse false (goStr "Invalid message format") [], true)
  else
    match msg.Validate with
    | some e => (s, NewResponse false (goStr "Validation error: " ++ e) [], true)
    | none =>
      let (s1, response) := processCommand s client msg now
      (s1, response, !(msg.Command = CmdQuit))

/-- One pass of the loop of `handleClient`: `line` and `err` are the results of
`reader.ReadString`. The result is the server afterwards and whether the loop goes
on. -/
def handleLine (s : Server) (client : Conn) (line : GoString) (err : Option GoString)
    (now : Time) : Server × Bool :=
  if err ≠ none then (s, false)
  else
    let (s1, response, goOn) := handleMessage s client line err now
    (sendResponse s1 client response, goOn)

/-- The deferred function of `handleClient`: the connection is closed and removed
from the map. -/
def cleanup (s : Server) (client : Conn) : Server :=
  { s with closed := s.closed ++ [client], clients := s.clients.filter (fun c => c ≠ client) }

/-- The read loop of `handleClient` over the successive results of `ReadString`
(line, error, and the time during that pass). When the loop returns, the deferred
cleanup runs and the result is marked `true`; when the results run out the worker is
still blocked in `ReadString` (`false`). -/
def handleLoop (s : Server) (client : Conn) :
    List (GoString × Option GoString × Time) → Server × Bool
  | [] => (s, false)
  | (line, err, now) :: rest =>
    let (s1, goOn) := handleLine s client line err now
    if goOn then handleLoop s1 client rest else (cleanup s1 client, true)

/-- The part of `handleClient` before the read loop: the welcome message is sent. -/
def handleClientStart (s : Server) (client : Conn) : Server :=
  let welcome := NewResponse true (goStr "Welcome to TCP/IP Educational Server!") []
  sendResponse s client welcome

/-- handleClient processes messages from a single client: the welcome message, then
the read loop. -/
def handleClient (s : Server) (client : Conn)
    (reads : List (GoString × Option GoString × Time)) : Server × Bool :=
  handleLoop (handleClientStart s client) client reads

/-! ### Vocabulary of the properties -/

/-- The last `k` elements of `l`, all of `l` when it has fewer. -/
def lastN {α : Type} (k : Nat) (l : List α) : List α := l.drop (l.length - k)

/-- A sequence of `storeMessage` calls, one for each entry, oldest first; the call for
an entry is made with its sender and content at its time. -/
def storeAll (s : Server) (entries : List StoredMessage) : Server :=
  entries.foldl (fun s e => storeMessage s e.From e.Content e.Timestamp) s

/-- The rendering the specification describes for a sequence of entries: one text
"[HH:MM:SS] sender: content" for each entry, joined by single newline characters. -/
def renderMessages (l : List StoredMessage) : GoString :=
  stringsJoin (l.map formatMessage) [10]

/-- The text `hay` contains the text `needle`. -/
def includes (hay needle : GoString) : Prop := ∃ pre post, hay = pre ++ needle ++ post

/-- A time of day for the scenarios. -/
def noon : Time :=
  { hour := 12, minute := 0, second := 0, rfc3339 := goStr "2024-01-01T12:00:00Z" }

/-- Scenario B up to the chat message: connections 1 and 2 are accepted and welcomed,
and register as "Alice" and "Bob". -/
def scenarioRegistered : Server :=
  let s1 := handleClientStart (acceptConnection NewServer 1) 1
  let s2 := handleClientStart (acceptConnection s1 2) 2
  let s3 := (handleLine s2 1 (Message.ToJSON ⟨CmdRegister, goStr "Alice", []⟩).1 none noon).1
  (handleLine s3 2 (Message.ToJSON ⟨CmdRegister, goStr "Bob", []⟩).1 none noon).1

/-- Scenario B: then the worker of connection 1 reads the MESSAGE "hi" of Alice. -/
def scenarioChat : Server :=
  (handleLine scenarioRegistered 1 (Message.ToJSON ⟨CmdMessage, goStr "hi", []⟩).1 none
    noon).1

end server

/-! ## The JSON grammar

The side of the specification for decoding: which byte sequences are JSON texts. This
is the grammar of RFC 8259, read over bytes as `encoding/json` reads it (the bytes of
a string are any bytes from 0x20 up other than the quotation mark and the backslash;
they need not be valid UTF-8), with the limit of 10000 that `encoding/json` sets on
the nesting of arrays and objects (RFC 8259, section 9, allows such a limit). The
rules are written after the RFC, not after the scanner; that the scanner accepts
exactly these texts is a theorem below. -/

namespace rfc8259

end rfc8259

open protocol server

/-! ## UTF-8 -/

theorem lor_eq_add (i x b : Nat) (hx : x % 2 ^ i = 0) (hb : b < 2 ^ i) : x ||| b = x + b := by
  have h := Nat.mul_add_lt_is_or hb (x / 2 ^ i)
  have e : 2 ^ i * (x / 2 ^ i) = x := by
    have := Nat.div_add_mod x (2 ^ i)
    omega
  rw [e] at h
  exact h.symm

theorem and_63 (x : Nat) : x &&& 63 = x % 64 := Nat.and_pow_two_sub_one_eq_mod x 6
theorem and_31 (x : Nat) : x &&& 31 = x % 32 := Nat.and_pow_two_sub_one_eq_mod x 5
theorem and_15 (x : Nat) : x &&& 15 = x % 16 := Nat.and_pow_two_sub_one_eq_mod x 4
theorem and_7 (x : Nat) : x &&& 7 = x % 8 := Nat.and_pow_two_sub_one_eq_mod x 3

/-- `EncodeRune` in terms of division and remainder. -/
theorem EncodeRune_arith (r : Nat) :
    utf8.EncodeRune r =
      if r ≤ 0x7F then [r]
      else if r ≤ 0x7FF then [0xC0 + r / 64, 0x80 + r % 64]
      else if r > 0x10FFFF ∨ (0xD800 ≤ r ∧ r ≤ 0xDFFF) then [0xEF, 0xBF, 0xBD]
      else if r ≤ 0xFFFF then [0xE0 + r / 4096, 0x80 + r / 64 % 64, 0x80 + r % 64]
      else [0xF0 + r / 262144, 0x80 + r / 4096 % 64, 0x80 + r / 64 % 64, 0x80 + r % 64] := by
  unfold utf8.EncodeRune utf8.MaxRune
  simp only [and_63, Nat.shiftRight_eq_div_pow]
  norm_num
  by_cases h1 : r ≤ 0x7F
  · rw [if_pos h1, if_pos h1]
    simp only [List.cons.injEq, and_true]
    omega
  rw [if_neg h1, if_neg h1]
  by_cases h2 : r ≤ 0x7FF
  · rw [if_pos h2, if_pos h2, lor_eq_add 6 0xC0 _ (by norm_num) (by omega),
      lor_eq_add 7 0x80 _ (by norm_num) (by omega)]
    simp only [List.cons.injEq, and_true]
    omega
  rw [if_neg h2, if_neg h2]
  by_cases h3 : 0x10FFFF < r ∨ (0xD800 ≤ r ∧ r ≤ 0xDFFF)
  · rw [if_pos h3, if_pos h3]
  rw [if_neg h3, if_neg h3]
  by_cases h4 : r ≤ 0xFFFF
  · rw [if_pos h4, if_pos h4, lor_eq_add 5 0xE0 _ (by norm_num) (by omega),
      lor_eq_add 7 0x80 _ (by norm_num) (by omega),
      lor_eq_add 7 0x80 _ (by norm_num) (by omega)]
    simp only [List.cons.injEq, and_true]
    omega
  · rw [if_neg h4, if_neg h4, lor_eq_add 4 0xF0 _ (by norm_num) (by omega),
      lor_eq_add 7 0x80 _ (by norm_num) (by omega),
      lor_eq_add 7 0x80 _ (by norm_num) (by omega),
      lor_eq_add 7 0x80 _ (by norm_num) (by omega)]
    simp only [List.cons.injEq, and_true]
    omega

theorem first_spec (p0 sz lo hi : Nat) (h : utf8.first p0 = some (sz, lo, hi)) :
    (sz = 2 ∧ 0xC2 ≤ p0 ∧ p0 ≤ 0xDF ∧ lo = 0x80 ∧ hi = 0xBF) ∨
    (sz = 3 ∧ 0xE0 ≤ p0 ∧ p0 ≤ 0xEF ∧ (p0 = 0xE0 → lo = 0xA0) ∧ (p0 ≠ 0xE0 → lo = 0x80) ∧
      (p0 = 0xED → hi = 0x9F) ∧ (p0 ≠ 0xED → hi = 0xBF)) ∨
    (sz = 4 ∧ 0xF0 ≤ p0 ∧ p0 ≤ 0xF4 ∧ (p0 = 0xF0 → lo = 0x90) ∧ (p0 ≠ 0xF0 → lo = 0x80) ∧
      (p0 = 0xF4 → hi = 0x8F) ∧ (p0 ≠ 0xF4 → hi = 0xBF)) := by
  unfold utf8.first at h
  split_ifs at h <;> simp only [Option.some.injEq, Prod.mk.injEq, reduceCtorEq] at h <;>
    obtain ⟨rfl, rfl, rfl⟩ := h <;> omega

/-- The possible outcomes of `DecodeRune`: empty input, an ASCII byte, an invalid
encoding, or a well-formed sequence of two, three or four bytes. -/
theorem DecodeRune_cases (p : List Nat) :
    (p = [] ∧ utf8.DecodeRune p = (utf8.RuneError, 0)) ∨
    (∃ p0 t, p = p0 :: t ∧ p0 < 0x80 ∧ utf8.DecodeRune p = (p0, 1)) ∨
    (∃ p0 t, p = p0 :: t ∧ 0x80 ≤ p0 ∧ utf8.DecodeRune p = (utf8.RuneError, 1)) ∨
    (∃ p0 b1 t, p = p0 :: b1 :: t ∧ 0xC2 ≤ p0 ∧ p0 ≤ 0xDF ∧ 0x80 ≤ b1 ∧ b1 ≤ 0xBF ∧
      ∀ q, utf8.DecodeRune (p0 :: b1 :: q) = ((p0 - 0xC0) * 64 + (b1 - 0x80), 2)) ∨
    (∃ p0 b1 b2 t, p = p0 :: b1 :: b2 :: t ∧ 0xE0 ≤ p0 ∧ p0 ≤ 0xEF ∧
      0x80 ≤ b1 ∧ b1 ≤ 0xBF ∧ (p0 = 0xE0 → 0xA0 ≤ b1) ∧ (p0 = 0xED → b1 ≤ 0x9F) ∧
      0x80 ≤ b2 ∧ b2 ≤ 0xBF ∧
      ∀ q, utf8.DecodeRune (p0 :: b1 :: b2 :: q) =
        ((p0 - 0xE0) * 4096 + (b1 - 0x80) * 64 + (b2 - 0x80), 3)) ∨
    (∃ p0 b1 b2 b3 t, p = p0 :: b1 :: b2 :: b3 :: t ∧ 0xF0 ≤ p0 ∧ p0 ≤ 0xF4 ∧
      0x80 ≤ b1 ∧ b1 ≤ 0xBF ∧ (p0 = 0xF0 → 0x90 ≤ b1) ∧ (p0 = 0xF4 → b1 ≤ 0x8F) ∧
      0x80 ≤ b2 ∧ b2 ≤ 0xBF ∧ 0x80 ≤ b3 ∧ b3 ≤ 0xBF ∧
      ∀ q, utf8.DecodeRune (p0 :: b1 :: b2 :: b3 :: q) =
        ((p0 - 0xF0) * 262144 + (b1 - 0x80) * 4096 + (b2 - 0x80) * 64 + (b3 - 0x80), 4)) := by
  cases p with
  | nil => exact Or.inl ⟨rfl, rfl⟩
  | cons p0 t =>
    right
    by_cases h0 : p0 < 0x80
    · exact Or.inl ⟨p0, t, rfl, h0, by simp [utf8.DecodeRune, utf8.RuneSelf, h0]⟩
    right
    have h0' : 0x80 ≤ p0 := by omega
    cases hf : utf8.first p0 with
    | none => exact Or.inl ⟨p0, t, rfl, h0', by simp [utf8.DecodeRune, utf8.RuneSelf, h0, hf]⟩
    | some q =>
      obtain ⟨sz, lo, hi⟩ := q
      cases t with
      | nil => exact Or.inl ⟨p0, [], rfl, h0', by simp [utf8.DecodeRune, utf8.RuneSelf, h0, hf]⟩
      | cons b1 t1 =>
        by_cases hb1 : b1 < lo ∨ hi < b1
        · exact Or.inl ⟨p0, _, rfl, h0', by simp [utf8.DecodeRune, utf8.RuneSelf, h0, hf, hb1]⟩
        have e31 : p0 &&& 31 = p0 % 32 := and_31 p0
        have e15 : p0 &&& 15 = p0 % 16 := and_15 p0
        have e7 : p0 &&& 7 = p0 % 8 := and_7 p0
        rcases first_spec p0 sz lo hi hf with ⟨rfl, h1, h2, rfl, rfl⟩ |
            ⟨rfl, h1, h2, k1, k2, k3, k4⟩ | ⟨rfl, h1, h2, k1, k2, k3, k4⟩
        · right; left
          refine ⟨p0, b1, t1, rfl, h1, h2, by omega, by omega, ?_⟩
          intro q
          simp only [utf8.DecodeRune, utf8.RuneSelf, h0, hf, hb1, if_false, le_refl, if_true,
            and_63, e31]
          rw [lor_eq_add 6 _ _ (by omega) (by omega)]
          simp only [Prod.mk.injEq, and_true]
          omega
        · cases t1 with
          | nil =>
            exact Or.inl ⟨p0, _, rfl, h0', by simp [utf8.DecodeRune, utf8.RuneSelf, h0, hf, hb1]⟩
          | cons b2 t2 =>
            by_cases hb2 : b2 < 0x80 ∨ 0xBF < b2
            · exact Or.inl ⟨p0, _, rfl, h0',
                by simp [utf8.DecodeRune, utf8.RuneSelf, h0, hf, hb1, hb2]⟩
            right; right; left
            refine ⟨p0, b1, b2, t2, rfl, h1, h2, by omega, by omega, by omega, by omega,
              by omega, by omega, ?_⟩
            intro q
            simp only [utf8.DecodeRune, utf8.RuneSelf, h0, hf, hb1, hb2, if_false, le_refl,
              if_true, and_63, e15, Nat.reduceLeDiff]
            rw [lor_eq_add 12 ((p0 % 16) <<< 12) ((b1 % 64) <<< 6) (by omega) (by omega),
              lor_eq_add 6 _ _ (by omega) (by omega)]
            simp only [Prod.mk.injEq, and_true]
            omega
        · cases t1 with
          | nil =>
            exact Or.inl ⟨p0, _, rfl, h0', by simp [utf8.DecodeRune, utf8.RuneSelf, h0, hf, hb1]⟩
          | cons b2 t2 =>
            by_cases hb2 : b2 < 0x80 ∨ 0xBF < b2
            · exact Or.inl ⟨p0, _, rfl, h0',
                by simp [utf8.DecodeRune, utf8.RuneSelf, h0, hf, hb1, hb2]⟩
            cases t2 with
            | nil =>
              exact Or.inl ⟨p0, _, rfl, h0',
                by simp [utf8.DecodeRune, utf8.RuneSelf, h0, hf, hb1, hb2]⟩
            | cons b3 t3 =>
              by_cases hb3 : b3 < 0x80 ∨ 0xBF < b3
              · exact Or.inl ⟨p0, _, rfl, h0',
                  by simp [utf8.DecodeRune, utf8.RuneSelf, h0, hf, hb1, hb2, hb3]⟩
              right; right; right
              refine ⟨p0, b1, b2, b3, t3, rfl, h1, h2, by omega, by omega, by omega, by omega,
                by omega, by omega, by omega, by omega, ?_⟩
              intro q
              simp only [utf8.DecodeRune, utf8.RuneSelf, h0, hf, hb1, hb2, hb3, if_false,
                and_63, e7, Nat.reduceLeDiff]
              rw [lor_eq_add 18 ((p0 % 8) <<< 18) ((b1 % 64) <<< 12) (by omega) (by omega),
                lor_eq_add 12 ((p0 % 8) <<< 18 + (b1 % 64) <<< 12) ((b2 % 64) <<< 6)
                  (by omega) (by omega),
                lor_eq_add 6 _ _ (by omega) (by omega)]
              simp only [Prod.mk.injEq, and_true]
              omega

theorem DecodeRune_take4 (p : List Nat) : utf8.DecodeRune (p.take 4) = utf8.DecodeRune p := by
  match p with
  | [] => rfl
  | [_] => rfl
  | [_, _] => rfl
  | [_, _, _] => rfl
  | _ :: _ :: _ :: _ :: _ :: _ => simp [utf8.DecodeRune]
  | [_, _, _, _] => rfl

/-- A well-formed multi-byte sequence at the head of `p`: its bytes are all at least
0x80, encoding the decoded rune gives them back, and they decode the same whatever
follows them. -/
theorem DecodeRune_multi (p : List Nat) (r n : Nat) (h : utf8.DecodeRune p = (r, n))
    (hv : ¬(r = utf8.RuneError ∧ n = 1)) (h0 : ∀ p0 t, p = p0 :: t → 0x80 ≤ p0)
    (hne : p ≠ []) :
    2 ≤ n ∧ n ≤ 4 ∧ n ≤ p.length ∧ 0x80 ≤ r ∧ (∀ b ∈ p.take n, 0x80 ≤ b ∧ b < 0x100) ∧
    utf8.EncodeRune r = p.take n ∧ (∀ q, utf8.DecodeRune (p.take n ++ q) = (r, n)) ∧
    (r = 0x2028 → p.take n = [0xE2, 0x80, 0xA8]) ∧
    (r = 0x2029 → p.take n = [0xE2, 0x80, 0xA9]) := by
  rcases DecodeRune_cases p with ⟨rfl, _⟩ | ⟨p0, t, rfl, hp, _⟩ | ⟨p0, t, rfl, _, hd⟩ |
      ⟨p0, b1, t, rfl, h1, h2, h3, h4, hd⟩ |
      ⟨p0, b1, b2, t, rfl, h1, h2, h3, h4, h5, h6, h7, h8, hd⟩ |
      ⟨p0, b1, b2, b3, t, rfl, h1, h2, h3, h4, h5, h6, h7, h8, h9, h10, hd⟩
  · exact absurd rfl hne
  · have := h0 p0 t rfl
    omega
  · rw [hd] at h
    simp only [Prod.mk.injEq] at h
    exact absurd ⟨h.1.symm, h.2.symm⟩ hv
  · rw [hd t] at h
    simp only [Prod.mk.injEq] at h
    obtain ⟨rfl, rfl⟩ := h
    refine ⟨by omega, by omega, by simp, by omega, ?_, ?_, ?_, ?_, ?_⟩
    · intro b hb
      simp only [List.take_succ_cons, List.take_zero, List.mem_cons, List.mem_singleton,
        List.not_mem_nil, or_false] at hb
      rcases hb with rfl | rfl <;> omega
    · rw [EncodeRune_arith]
      simp only [List.take_succ_cons, List.take_zero]
      rw [if_neg (by omega), if_pos (by omega)]
      simp only [List.cons.injEq, and_true]
      omega
    · intro q
      simpa using hd q
    · intro e; omega
    · intro e; omega
  · rw [hd t] at h
    simp only [Prod.mk.injEq] at h
    obtain ⟨rfl, rfl⟩ := h
    refine ⟨by omega, by omega, by simp, by omega, ?_, ?_, ?_, ?_, ?_⟩
    · intro b hb
      simp only [List.take_succ_cons, List.take_zero, List.mem_cons, List.mem_singleton,
        List.not_mem_nil, or_false] at hb
      rcases hb with rfl | rfl | rfl <;> omega
    · rw [EncodeRune_arith]
      simp only [List.take_succ_cons, List.take_zero]
      rw [if_neg (by omega), if_neg (by omega), if_neg (by omega), if_pos (by omega)]
      simp only [List.cons.injEq, and_true]
      omega
    · intro q
      simpa using hd q
    · intro e
      simp only [List.take_succ_cons, List.take_zero, List.cons.injEq, and_true]
      omega
    · intro e
      simp only [List.take_succ_cons, List.take_zero, List.cons.injEq, and_true]
      omega
  · rw [hd t] at h
    simp only [Prod.mk.injEq] at h
    obtain ⟨rfl, rfl⟩ := h
    refine ⟨by omega, by omega, by simp, by omega, ?_, ?_, ?_, ?_, ?_⟩
    · intro b hb
      simp only [List.take_succ_cons, List.take_zero, List.mem_cons, List.mem_singleton,
        List.not_mem_nil, or_false] at hb
      rcases hb with rfl | rfl | rfl | rfl <;> omega
    · rw [EncodeRune_arith]
      simp only [List.take_succ_cons, List.take_zero]
      rw [if_neg (by omega), if_neg (by omega), if_neg (by omega), if_neg (by omega)]
      simp only [List.cons.injEq, and_true]
      omega
    · intro q
      simpa using hd q
    · intro e; omega
    · intro e; omega
/-! ## String literals: scanning what `appendString` writes -/

theorem scanString_plain (c : Nat) (X : List Nat) (h1 : 0x20 ≤ c) (h2 : c ≠ 34) (h3 : c ≠ 92) :
    json.scanString (c :: X) = (json.scanString X).map (fun r => (c :: r.1, r.2)) := by
  have h4 : ¬ c < 0x20 := by omega
  rw [json.scanString.eq_def]; simp [h2, h3, h4]

theorem scanString_high (l X : List Nat) (h : ∀ b ∈ l, 0x80 ≤ b) :
    json.scanString (l ++ X) = (json.scanString X).map (fun r => (l ++ r.1, r.2)) := by
  induction l with
  | nil => simp
  | cons c l ih =>
    have hc := h c (List.mem_cons_self c l)
    rw [List.cons_append, scanString_plain c _ (by omega) (by omega) (by omega),
      ih (fun b hb => h b (List.mem_cons_of_mem c hb))]
    cases json.scanString X <;> simp

theorem scanString_esc (e : Nat) (X : List Nat)
    (h : e = 98 ∨ e = 102 ∨ e = 110 ∨ e = 114 ∨ e = 116 ∨ e = 92 ∨ e = 47 ∨ e = 34) :
    json.scanString (92 :: e :: X) =
      (json.scanString X).map (fun r => (92 :: e :: r.1, r.2)) := by
  rw [json.scanString.eq_def]; simp [h]

theorem scanString_escu (h1 h2 h3 h4 : Nat) (X : List Nat)
    (k1 : json.isHex h1 = true) (k2 : json.isHex h2 = true) (k3 : json.isHex h3 = true)
    (k4 : json.isHex h4 = true) :
    json.scanString (92 :: 117 :: h1 :: h2 :: h3 :: h4 :: X) =
      (json.scanString X).map (fun r => (92 :: 117 :: h1 :: h2 :: h3 :: h4 :: r.1, r.2)) := by
  rw [json.scanString.eq_def]; simp [k1, k2, k3, k4]

theorem isHex_hex (n : Nat) (h : n < 16) : json.isHex (json.hex n) = true := by
  unfold json.isHex json.hex
  split_ifs <;> simp <;> omega

theorem hexVal_hex (n : Nat) (h : n < 16) : json.hexVal (json.hex n) = some n := by
  unfold json.hexVal json.hex
  split_ifs <;> first | omega | (simp <;> omega)

/-- Whatever `quoteStep` writes is scanned as a part of the body of a string literal,
and `quoteStep` consumes at least one byte. -/
theorem quoteStep_scan (b : Nat) (t X : List Nat) :
    json.scanString ((json.quoteStep (b :: t)).1 ++ X) =
      (json.scanString X).map (fun r => ((json.quoteStep (b :: t)).1 ++ r.1, r.2)) ∧
    1 ≤ (json.quoteStep (b :: t)).2 := by
  unfold json.quoteStep
  by_cases hb : b < utf8.RuneSelf
  · have hb' : b < 0x80 := hb
    simp only [hb, if_true]
    by_cases hs : json.htmlSafeSet b = true
    · simp only [hs, if_true, le_refl, and_true]
      simp only [json.htmlSafeSet, decide_eq_true_eq] at hs
      exact scanString_plain b X hs.1 hs.2.1 hs.2.2.1
    simp only [hs, Bool.false_eq_true, if_false]
    split_ifs with c1 c2 c3 c4 c5 c6
    · exact ⟨scanString_esc b X (by omega), le_refl 1⟩
    · exact ⟨scanString_esc 98 X (by omega), le_refl 1⟩
    · exact ⟨scanString_esc 102 X (by omega), le_refl 1⟩
    · exact ⟨scanString_esc 110 X (by omega), le_refl 1⟩
    · exact ⟨scanString_esc 114 X (by omega), le_refl 1⟩
    · exact ⟨scanString_esc 116 X (by omega), le_refl 1⟩
    · refine ⟨scanString_escu 48 48 _ _ X (by decide) (by decide) (isHex_hex _ ?_)
        (isHex_hex _ ?_), le_refl 1⟩
      · omega
      · rw [and_15]; omega
  · simp only [hb, if_false, DecodeRune_take4]
    cases hd : utf8.DecodeRune (b :: t) with
    | mk c size =>
      simp only
      by_cases hv : c = utf8.RuneError ∧ size = 1
      · simp only [hv, and_self, if_true, le_refl, and_true]
        exact scanString_escu 102 102 102 100 X (by decide) (by decide) (by decide) (by decide)
      have hm := DecodeRune_multi (b :: t) c size hd hv
        (fun p0 t' e => by
          have : p0 = b := by injection e with e1 _; exact e1.symm
          subst this
          exact Nat.le_of_not_lt hb)
        (List.cons_ne_nil b t)
      rw [if_neg hv]
      by_cases h28 : c = 0x2028 ∨ c = 0x2029
      · rw [if_pos h28]
        refine ⟨scanString_escu 50 48 50 _ X (by decide) (by decide) (by decide)
          (isHex_hex _ ?_), by omega⟩
        rw [and_15]; omega
      · rw [if_neg h28]
        exact ⟨scanString_high _ X (fun x hx => (hm.2.2.2.2.1 x hx).1), by omega⟩

/-- The body `appendString` writes, followed by a quote, is scanned as one string
literal with that body. -/
theorem scanString_quoteAux (fuel : Nat) (s X : List Nat) :
    json.scanString (json.quoteAux fuel s ++ 34 :: X) = some (json.quoteAux fuel s, X) := by
  induction fuel generalizing s with
  | zero => rw [json.scanString.eq_def]; simp [json.quoteAux]
  | succ fuel ih =>
    cases s with
    | nil => rw [json.scanString.eq_def]; simp [json.quoteAux]
    | cons b t =>
      simp only [json.quoteAux, List.append_assoc]
      rw [(quoteStep_scan b t _).1, ih]
      simp

/-! ## String literals: unquoting what `appendString` writes -/

theorem unquoteStep_plain (c : Nat) (X : List Nat) (h1 : 0x20 ≤ c) (h2 : c ≠ 34) (h3 : c ≠ 92)
    (h4 : c < 0x80) : json.unquoteStep (c :: X) = some ([c], 1) := by
  have h5 : ¬ c < 0x20 := by omega
  simp [json.unquoteStep, utf8.RuneSelf, h2, h3, h4, h5]

theorem unquoteStep_high (b : Nat) (t : List Nat) (h : 0x80 ≤ b) :
    json.unquoteStep (b :: t) =
      some (utf8.EncodeRune (utf8.DecodeRune (b :: t)).1, (utf8.DecodeRune (b :: t)).2) := by
  have h1 : b ≠ 92 := by omega
  have h2 : b ≠ 34 := by omega
  have h3 : ¬ b < 0x20 := by omega
  have h4 : ¬ b < 0x80 := by omega
  simp [json.unquoteStep, utf8.RuneSelf, h1, h2, h3, h4]

theorem unquoteStep_escu (a b c d : Nat) (X : List Nat) (x y z w : Nat)
    (ha : json.hexVal a = some x) (hb : json.hexVal b = some y) (hc : json.hexVal c = some z)
    (hd : json.hexVal d = some w)
    (hs : ¬ (0xD800 ≤ ((x * 16 + y) * 16 + z) * 16 + w ∧
      ((x * 16 + y) * 16 + z) * 16 + w < 0xE000)) :
    json.unquoteStep (92 :: 117 :: a :: b :: c :: d :: X) =
      some (utf8.EncodeRune (((x * 16 + y) * 16 + z) * 16 + w), 6) := by
  simp [json.unquoteStep, json.getu4, ha, hb, hc, hd, json.isSurrogate, hs]

/-- Unquoting what `quoteStep` wrote for a well-formed rune gives the bytes of the rune
back. -/
theorem quoteStep_unquote (b : Nat) (t X : List Nat) (r n : Nat)
    (hd : utf8.DecodeRune (b :: t) = (r, n)) (hv : ¬(r = utf8.RuneError ∧ n = 1)) :
    json.unquoteStep ((json.quoteStep (b :: t)).1 ++ X) =
      some ((b :: t).take (json.quoteStep (b :: t)).2, (json.quoteStep (b :: t)).1.length) ∧
    (json.quoteStep (b :: t)).2 = n ∧ (json.quoteStep (b :: t)).1 ≠ [] := by
  unfold json.quoteStep
  by_cases hb : b < utf8.RuneSelf
  · have hb' : b < 0x80 := hb
    have hn : n = 1 := by
      simp [utf8.DecodeRune, hb] at hd
      exact hd.2.symm
    subst hn
    simp only [hb, if_true]
    by_cases hs : json.htmlSafeSet b = true
    · simp only [hs, if_true, List.take_succ_cons, List.take_zero, List.length_singleton,
        List.singleton_append, ne_eq, List.cons_ne_nil, not_false_eq_true, and_self, and_true]
      simp only [json.htmlSafeSet, decide_eq_true_eq] at hs
      exact unquoteStep_plain b X hs.1 hs.2.1 hs.2.2.1 hb'
    simp only [hs, Bool.false_eq_true, if_false]
    split_ifs with c1 c2 c3 c4 c5 c6
    · rcases c1 with rfl | rfl <;> simp [json.unquoteStep]
    · subst c2; simp [json.unquoteStep]
    · subst c3; simp [json.unquoteStep]
    · subst c4; simp [json.unquoteStep]
    · subst c5; simp [json.unquoteStep]
    · subst c6; simp [json.unquoteStep]
    · have e15 := and_15 b
      have k1 : b >>> 4 < 16 := by omega
      have k2 : b &&& 15 < 16 := by omega
      have hu := unquoteStep_escu 48 48 (json.hex (b >>> 4)) (json.hex (b &&& 15)) X 0 0
        (b >>> 4) (b &&& 15) (by decide) (by decide) (hexVal_hex _ k1) (hexVal_hex _ k2)
        (by omega)
      have e : ((0 * 16 + 0) * 16 + b >>> 4) * 16 + (b &&& 15) = b := by omega
      rw [e, EncodeRune_arith, if_pos (by omega)] at hu
      simp [hu]
  · have hb' : 0x80 ≤ b := Nat.le_of_not_lt hb
    simp only [hb, if_false, DecodeRune_take4, hd]
    have hm := DecodeRune_multi (b :: t) r n hd hv
      (fun p0 t' e => by
        have : p0 = b := by injection e with e1 _; exact e1.symm
        subst this
        exact hb')
      (List.cons_ne_nil b t)
    obtain ⟨m1, m2, m3, m4, m5, m6, m7, m8, m9⟩ := hm
    rw [if_neg hv]
    by_cases h28 : r = 0x2028 ∨ r = 0x2029
    · rw [if_pos h28]
      have e15 := and_15 r
      have hw : json.hexVal (json.hex (r &&& 15)) = some (r &&& 15) :=
        hexVal_hex _ (by omega)
      have hu := unquoteStep_escu 50 48 50 (json.hex (r &&& 15)) X 2 0 2 (r &&& 15)
        (by decide) (by decide) (by decide) hw (by omega)
      have e : ((2 * 16 + 0) * 16 + 2) * 16 + (r &&& 15) = r := by omega
      rw [e, m6] at hu
      simp [hu]
    · rw [if_neg h28]
      simp only [true_and, ne_eq]
      have hlen : ((b :: t).take n).length = n := by
        rw [List.length_take]; omega
      have hne : (b :: t).take n ≠ [] := by
        intro e0
        rw [e0] at hlen
        simp at hlen
        omega
      refine ⟨?_, hne⟩
      have hcons : (b :: t).take n = b :: t.take (n - 1) := by
        cases n with
        | zero => omega
        | succ k => simp
      rw [hlen]
      have hdq := m7 X
      rw [hcons] at hdq ⊢
      rw [List.cons_append] at hdq
      rw [List.cons_append, unquoteStep_high b _ hb', hdq, m6, hcons]

theorem DecodeRune_size_pos (b : Nat) (t : List Nat) : 1 ≤ (utf8.DecodeRune (b :: t)).2 := by
  rcases DecodeRune_cases (b :: t) with ⟨h, _⟩ | ⟨p0, t', _, _, hd⟩ | ⟨p0, t', _, _, hd⟩ |
      ⟨p0, b1, t', e, _, _, _, _, hd⟩ |
      ⟨p0, b1, b2, t', e, _, _, _, _, _, _, _, _, hd⟩ |
      ⟨p0, b1, b2, b3, t', e, _, _, _, _, _, _, _, _, _, _, hd⟩
  · exact absurd h (List.cons_ne_nil b t)
  · rw [hd]
  · rw [hd]
  · rw [e, hd t']; exact Nat.le_of_ble_eq_true rfl
  · rw [e, hd t']; exact Nat.le_of_ble_eq_true rfl
  · rw [e, hd t']; exact Nat.le_of_ble_eq_true rfl

theorem unquoteStep_pos (c : Nat) (t out : List Nat) (n : Nat)
    (h : json.unquoteStep (c :: t) = some (out, n)) : 1 ≤ n := by
  have hp := DecodeRune_size_pos c t
  unfold json.unquoteStep at h
  generalize utf8.DecodeRune (c :: t) = d at h hp
  obtain ⟨rr, size⟩ := d
  simp only at h hp
  by_cases h92 : c = 92
  · rw [if_pos h92] at h
    cases t with
    | nil => simp at h
    | cons e t' =>
      simp only at h
      by_cases hu : e = 117
      · subst hu
        simp only [Nat.reduceEqDiff, or_self, if_false] at h
        cases hg : json.getu4 (c :: 117 :: t') with
        | none => rw [hg] at h; simp at h
        | some g =>
          rw [hg] at h
          simp only at h
          split_ifs at h <;> simp only [Option.some.injEq, Prod.mk.injEq] at h <;> omega
      · simp only [hu, if_false] at h
        split_ifs at h <;> simp only [Option.some.injEq, Prod.mk.injEq] at h <;> omega
  · rw [if_neg h92] at h
    split_ifs at h <;> simp only [Option.some.injEq, Prod.mk.injEq] at h <;> omega

/-- The second loop of `unquoteBytes` gives the same result with any fuel that covers
the length of its input. -/
theorem unquoteAux_fuel (F1 F2 : Nat) (s : List Nat) (h1 : s.length ≤ F1)
    (h2 : s.length ≤ F2) : json.unquoteAux F1 s = json.unquoteAux F2 s := by
  induction F1 generalizing F2 s with
  | zero =>
    have : s = [] := List.length_eq_zero.mp (by omega)
    subst this
    cases F2 <;> simp [json.unquoteAux]
  | succ F1 ih =>
    cases s with
    | nil => cases F2 <;> simp [json.unquoteAux]
    | cons c t =>
      cases F2 with
      | zero => simp at h2
      | succ F2 =>
        simp only [json.unquoteAux]
        cases hs : json.unquoteStep (c :: t) with
        | none => rfl
        | some q =>
          obtain ⟨out, n⟩ := q
          have hn := unquoteStep_pos c t out n hs
          simp only
          rw [ih F2 ((c :: t).drop n) (by simp at h1 ⊢; omega) (by simp at h2 ⊢; omega)]

/-- The first loop of `unquoteBytes` only saves work: copying the plain prefix and
unquoting the rest is the same as unquoting everything. -/
theorem unquoteAux_plainLen (fuel F : Nat) (s : List Nat) (hF : s.length ≤ F) :
    (json.unquoteAux F (s.drop (json.plainLen fuel s))).map
      (fun t => s.take (json.plainLen fuel s) ++ t) = json.unquoteAux F s := by
  induction fuel generalizing F s with
  | zero => simp [json.plainLen]
  | succ fuel ih =>
    cases s with
    | nil => simp [json.plainLen]
    | cons c t =>
      cases F with
      | zero => simp at hF
      | succ F =>
        have hF' : t.length ≤ F := by simpa using hF
        unfold json.plainLen
        simp only
        by_cases h1 : c = 92 ∨ c = 34 ∨ c < 0x20
        · simp [h1]
        rw [if_neg h1]
        by_cases h2 : c < utf8.RuneSelf
        · rw [if_pos h2]
          have hstep : json.unquoteStep (c :: t) = some ([c], 1) :=
            unquoteStep_plain c t (by omega) (by omega) (by omega) h2
          have e1 : (c :: t).drop (1 + json.plainLen fuel t) = t.drop (json.plainLen fuel t) := by
            rw [Nat.add_comm]; rfl
          have e2 : (c :: t).take (1 + json.plainLen fuel t) =
              c :: t.take (json.plainLen fuel t) := by
            rw [Nat.add_comm]; rfl
          rw [e1, e2]
          conv_rhs => rw [json.unquoteAux]
          simp only [hstep, List.drop_succ_cons, List.drop_zero]
          rw [← ih F t hF', unquoteAux_fuel (F + 1) F _ (by simp; omega) (by simp; omega)]
          cases json.unquoteAux F (t.drop (json.plainLen fuel t)) <;> simp
        · rw [if_neg h2]
          have hc : 0x80 ≤ c := Nat.le_of_not_lt h2
          cases hd : utf8.DecodeRune (c :: t) with
          | mk rr size =>
            simp only
            by_cases hv : rr = utf8.RuneError ∧ size = 1
            · simp [hv]
            rw [if_neg hv]
            have hm := DecodeRune_multi (c :: t) rr size hd hv
              (fun p0 t' e => by
                have : p0 = c := by injection e with e1 _; exact e1.symm
                subst this
                exact hc)
              (List.cons_ne_nil c t)
            obtain ⟨m1, m2, m3, m4, m5, m6, m7, m8, m9⟩ := hm
            have hstep : json.unquoteStep (c :: t) = some ((c :: t).take size, size) := by
              rw [unquoteStep_high c t hc, hd, m6]
            have hlen : ((c :: t).drop size).length ≤ F := by
              simp only [List.length_drop, List.length_cons] at hF ⊢
              omega
            rw [← List.drop_drop, List.take_add]
            conv_rhs => rw [json.unquoteAux]
            simp only [hstep]
            rw [← ih F _ hlen, unquoteAux_fuel (F + 1) F _ (by
              simp only [List.length_drop, List.length_cons] at hF ⊢
              omega) (by
              simp only [List.length_drop, List.length_cons] at hF ⊢
              omega)]
            cases json.unquoteAux F (((c :: t).drop size).drop
              (json.plainLen fuel ((c :: t).drop size))) <;> simp

theorem unquoteBytes_eq (s : List Nat) : json.unquoteBytes s = json.unquoteAux s.length s := by
  unfold json.unquoteBytes
  exact unquoteAux_plainLen s.length s.length s (le_refl _)

/-- Unquoting the body that `appendString` writes for valid UTF-8 gives the string
back. -/
theorem unquoteAux_quoteAux (fuel F : Nat) (s : List Nat)
    (hv : utf8.validAux fuel s = true) (hF : (json.quoteAux fuel s).length ≤ F) :
    json.unquoteAux F (json.quoteAux fuel s) = some s := by
  induction fuel generalizing F s with
  | zero =>
    have : s = [] := by simpa [utf8.validAux] using hv
    subst this
    cases F <;> simp [json.quoteAux, json.unquoteAux]
  | succ fuel ih =>
    cases s with
    | nil => cases F <;> simp [json.quoteAux, json.unquoteAux]
    | cons b t =>
      cases hd : utf8.DecodeRune (b :: t) with
      | mk r n =>
        simp only [utf8.validAux, hd] at hv
        have hv1 : ¬(r = utf8.RuneError ∧ n = 1) := by
          intro h; simp [h] at hv
        rw [if_neg hv1] at hv
        simp only [json.quoteAux] at hF ⊢
        obtain ⟨q1, q2, q3⟩ := quoteStep_unquote b t
          (json.quoteAux fuel ((b :: t).drop (json.quoteStep (b :: t)).2)) r n hd hv1
        rw [q2] at q1 hF ⊢
        have hpos : 1 ≤ (json.quoteStep (b :: t)).1.length := by
          cases h : (json.quoteStep (b :: t)).1 with
          | nil => exact absurd h q3
          | cons _ _ => simp
        cases F with
        | zero => simp only [List.length_append] at hF; omega
        | succ F =>
          cases hq : (json.quoteStep (b :: t)).1 ++ json.quoteAux fuel ((b :: t).drop n) with
          | nil =>
            have := congrArg List.length hq
            simp only [List.length_append, List.length_nil] at this
            omega
          | cons x y =>
            rw [json.unquoteAux, ← hq]
            simp only [q1, List.drop_left]
            rw [ih F _ hv (by simp only [List.length_append] at hF; omega)]
            simp

theorem unquoteBytes_quoteBody (s : List Nat) (hv : utf8.Valid s = true) :
    json.unquoteBytes (json.quoteBody s) = some s := by
  rw [unquoteBytes_eq]
  exact unquoteAux_quoteAux s.length _ s hv (le_refl _)

/-! ## Decoding what `ToJSON` writes -/

theorem skipSpace_cons (c : Nat) (X : List Nat) (h : json.isSpace c = false) :
    json.skipSpace (c :: X) = c :: X := by
  simp [json.skipSpace, h]

theorem scanString_key (k X : List Nat) (h : ∀ b ∈ k, 0x20 ≤ b ∧ b ≠ 34 ∧ b ≠ 92) :
    json.scanString (k ++ 34 :: X) = some (k, X) := by
  induction k with
  | nil => rw [json.scanString.eq_def]; simp
  | cons c l ih =>
    have hc := h c (List.mem_cons_self c l)
    rw [List.cons_append, scanString_plain c _ hc.1 hc.2.1 hc.2.2,
      ih (fun b hb => h b (List.mem_cons_of_mem c hb))]
    simp

theorem scanValue_string (fuel depth : Nat) (s X : List Nat) :
    json.scanValue (fuel + 1) depth (34 :: (json.quoteBody s ++ 34 :: X)) =
      some (json.Value.string (json.quoteBody s), X) := by
  rw [json.scanValue.eq_def]
  simp [json.quoteBody, scanString_quoteAux]

theorem scanValue_bool (fuel depth : Nat) (b : Bool) (X : List Nat) :
    json.scanValue (fuel + 1) depth ((if b then goStr "true" else goStr "false") ++ X) =
      some (json.Value.bool b, X) := by
  cases b
  · have e : goStr "false" = [102, 97, 108, 115, 101] := by decide
    rw [if_neg (by simp), e, List.cons_append, json.scanValue.eq_def]
    simp [json.expect, json.isDigit]
  · have e : goStr "true" = [116, 114, 117, 101] := by decide
    rw [if_pos rfl, e, List.cons_append, json.scanValue.eq_def]
    simp [json.expect, json.isDigit]

theorem scanMembers_string_more (fuel depth : Nat) (key s X : List Nat)
    (hk : ∀ b ∈ key, 0x20 ≤ b ∧ b ≠ 34 ∧ b ≠ 92) :
    json.scanMembers (fuel + 2) depth
        (34 :: (key ++ 34 :: 58 :: 34 :: (json.quoteBody s ++ 34 :: 44 :: 34 :: X))) =
      (json.scanMembers (fuel + 1) depth (34 :: X)).map
        (fun m => ((key, json.Value.string (json.quoteBody s)) :: m.1, m.2)) := by
  rw [json.scanMembers.eq_def]
  simp [scanString_key _ _ hk, json.skipSpace, json.isSpace, scanValue_string]

theorem scanMembers_string_last (fuel depth : Nat) (key s X : List Nat)
    (hk : ∀ b ∈ key, 0x20 ≤ b ∧ b ≠ 34 ∧ b ≠ 92) :
    json.scanMembers (fuel + 2) depth
        (34 :: (key ++ 34 :: 58 :: 34 :: (json.quoteBody s ++ 34 :: 125 :: X))) =
      some ([(key, json.Value.string (json.quoteBody s))], X) := by
  rw [json.scanMembers.eq_def]
  simp [scanString_key _ _ hk, json.skipSpace, json.isSpace, scanValue_string]

theorem scanMembers_bool_more (fuel depth : Nat) (key : List Nat) (b : Bool) (X : List Nat)
    (hk : ∀ b ∈ key, 0x20 ≤ b ∧ b ≠ 34 ∧ b ≠ 92) :
    json.scanMembers (fuel + 2) depth
        (34 :: (key ++ 34 :: 58 :: ((if b then goStr "true" else goStr "false") ++
          44 :: 34 :: X))) =
      (json.scanMembers (fuel + 1) depth (34 :: X)).map
        (fun m => ((key, json.Value.bool b) :: m.1, m.2)) := by
  have hs : json.skipSpace ((if b then goStr "true" else goStr "false") ++ 44 :: 34 :: X) =
      (if b then goStr "true" else goStr "false") ++ 44 :: 34 :: X := by
    cases b
    · have e : goStr "false" = [102, 97, 108, 115, 101] := by decide
      rw [if_neg (by simp), e]
      simp [json.skipSpace, json.isSpace]
    · have e : goStr "true" = [116, 114, 117, 101] := by decide
      rw [if_pos rfl, e]
      simp [json.skipSpace, json.isSpace]
  rw [json.scanMembers.eq_def]
  simp [scanString_key _ _ hk, json.skipSpace, json.isSpace, hs, scanValue_bool]

theorem marshal_message_eq (m : Message) :
    m.marshal ++ [10] =
      123 :: 34 :: (goStr "command" ++ 34 :: 58 :: 34 :: (json.quoteBody m.Command ++
        34 :: 44 :: 34 :: (goStr "data" ++ 34 :: 58 :: 34 :: (json.quoteBody m.Data ++
        34 :: 44 :: 34 :: (goStr "from" ++ 34 :: 58 :: 34 :: (json.quoteBody m.From ++
        34 :: 125 :: [10])))))) := by
  have e1 : goStr "\x7b\"command\":" = 123 :: 34 :: (goStr "command" ++ [34, 58]) := by decide
  have e2 : goStr ",\"data\":" = 44 :: 34 :: (goStr "data" ++ [34, 58]) := by decide
  have e3 : goStr ",\"from\":" = 44 :: 34 :: (goStr "from" ++ [34, 58]) := by decide
  have e4 : goStr "\x7d" = [125] := by decide
  simp only [Message.marshal, json.appendString, e1, e2, e3, e4, List.append_assoc,
    List.cons_append, List.nil_append, List.singleton_append]

theorem marshal_response_eq (r : Response) :
    r.marshal ++ [10] =
      123 :: 34 :: (goStr "success" ++ 34 :: 58 ::
        ((if r.Success then goStr "true" else goStr "false") ++
        44 :: 34 :: (goStr "message" ++ 34 :: 58 :: 34 :: (json.quoteBody r.Message ++
        34 :: 44 :: 34 :: (goStr "data" ++ 34 :: 58 :: 34 :: (json.quoteBody r.Data ++
        34 :: 125 :: [10])))))) := by
  have e1 : goStr "\x7b\"success\":" = 123 :: 34 :: (goStr "success" ++ [34, 58]) := by decide
  have e2 : goStr ",\"message\":" = 44 :: 34 :: (goStr "message" ++ [34, 58]) := by decide
  have e3 : goStr ",\"data\":" = 44 :: 34 :: (goStr "data" ++ [34, 58]) := by decide
  have e4 : goStr "\x7d" = [125] := by decide
  simp only [Response.marshal, json.appendString, json.appendBool, e1, e2, e3, e4,
    List.append_assoc, List.cons_append, List.nil_append, List.singleton_append]

/-- `checkValid` on the bytes `Message.ToJSON` returns: one object with the three
members in order. -/
theorem checkValid_message (m : Message) :
    json.checkValid (m.marshal ++ [10]) =
      some (json.Value.object
        [(goStr "command", json.Value.string (json.quoteBody m.Command)),
         (goStr "data", json.Value.string (json.quoteBody m.Data)),
         (goStr "from", json.Value.string (json.quoteBody m.From))]) := by
  have hlen : ∃ k, (m.marshal ++ [10]).length = k + 6 := by
    refine ⟨(m.marshal ++ [10]).length - 6, ?_⟩
    rw [marshal_message_eq]
    simp only [List.length_cons, List.length_append]
    omega
  obtain ⟨k, hk⟩ := hlen
  unfold json.checkValid
  rw [hk, marshal_message_eq, skipSpace_cons 123 _ (by decide), json.scanValue.eq_def]
  simp only [json.maxNestingDepth, skipSpace_cons 34 _ (by decide)]
  rw [scanMembers_string_more (k + 4) 1 _ _ _ (by decide),
    scanMembers_string_more (k + 3) 1 _ _ _ (by decide),
    scanMembers_string_last (k + 2) 1 _ _ _ (by decide)]
  simp [json.skipSpace, json.isSpace]

/-- `checkValid` on the bytes `Response.ToJSON` returns. -/
theorem checkValid_response (r : Response) :
    json.checkValid (r.marshal ++ [10]) =
      some (json.Value.object
        [(goStr "success", json.Value.bool r.Success),
         (goStr "message", json.Value.string (json.quoteBody r.Message)),
         (goStr "data", json.Value.string (json.quoteBody r.Data))]) := by
  have hlen : ∃ k, (r.marshal ++ [10]).length = k + 6 := by
    refine ⟨(r.marshal ++ [10]).length - 6, ?_⟩
    rw [marshal_response_eq]
    simp only [List.length_cons, List.length_append]
    omega
  obtain ⟨k, hk⟩ := hlen
  unfold json.checkValid
  rw [hk, marshal_response_eq, skipSpace_cons 123 _ (by decide), json.scanValue.eq_def]
  simp only [json.maxNestingDepth, skipSpace_cons 34 _ (by decide)]
  rw [scanMembers_bool_more (k + 4) 1 _ _ _ (by decide),
    scanMembers_string_more (k + 3) 1 _ _ _ (by decide),
    scanMembers_string_last (k + 2) 1 _ _ _ (by decide)]
  simp [json.skipSpace, json.isSpace]

/-- Decoding the bytes `Message.ToJSON` returns for a message of valid UTF-8 strings
stores the three fields, in order, and saves no error. -/
theorem Unmarshal_message (m : Message) (h1 : utf8.Valid m.Command = true)
    (h2 : utf8.Valid m.Data = true) (h3 : utf8.Valid m.From = true) :
    json.Unmarshal messageFields (m.marshal ++ [10]) =
      Except.ok ⟨[(0, json.FieldValue.string m.Command), (1, json.FieldValue.string m.Data),
        (2, json.FieldValue.string m.From)], none⟩ := by
  have k1 : json.unquoteBytes (goStr "command") = some (goStr "command") := by decide
  have k2 : json.unquoteBytes (goStr "data") = some (goStr "data") := by decide
  have k3 : json.unquoteBytes (goStr "from") = some (goStr "from") := by decide
  have l1 : json.lookupField messageFields (goStr "command") =
      some (0, json.FieldKind.string) := by decide
  have l2 : json.lookupField messageFields (goStr "data") =
      some (1, json.FieldKind.string) := by decide
  have l3 : json.lookupField messageFields (goStr "from") =
      some (2, json.FieldKind.string) := by decide
  simp only [json.Unmarshal, checkValid_message, json.decodeMembers, k1, k2, k3, l1, l2, l3,
    json.Decoded.storeValue, unquoteBytes_quoteBody _ h1, unquoteBytes_quoteBody _ h2,
    unquoteBytes_quoteBody _ h3, List.nil_append, List.cons_append]

/-- Decoding the bytes `Response.ToJSON` returns for a response of valid UTF-8
strings stores the three fields, in order, and saves no error. -/
theorem Unmarshal_response (r : Response) (h1 : utf8.Valid r.Message = true)
    (h2 : utf8.Valid r.Data = true) :
    json.Unmarshal responseFields (r.marshal ++ [10]) =
      Except.ok ⟨[(0, json.FieldValue.bool r.Success), (1, json.FieldValue.string r.Message),
        (2, json.FieldValue.string r.Data)], none⟩ := by
  have k1 : json.unquoteBytes (goStr "success") = some (goStr "success") := by decide
  have k2 : json.unquoteBytes (goStr "message") = some (goStr "message") := by decide
  have k3 : json.unquoteBytes (goStr "data") = some (goStr "data") := by decide
  have l1 : json.lookupField responseFields (goStr "success") =
      some (0, json.FieldKind.bool) := by decide
  have l2 : json.lookupField responseFields (goStr "message") =
      some (1, json.FieldKind.string) := by decide
  have l3 : json.lookupField responseFields (goStr "data") =
      some (2, json.FieldKind.string) := by decide
  simp only [json.Unmarshal, checkValid_response, json.decodeMembers, k1, k2, k3, l1, l2, l3,
    json.Decoded.storeValue, unquoteBytes_quoteBody _ h1, unquoteBytes_quoteBody _ h2,
    List.nil_append, List.cons_append]

/-- C2 (as amended): for every message and every response whose strings are valid
UTF-8, `ToJSON` returns no error and `FromJSON` on the bytes it returns, into any
receiver, returns no error and leaves the receiver equal to the original in every
field. -/
theorem json_round_trip_valid_utf8 (m m0 : Message) (r r0 : Response)
    (hc : utf8.Valid m.Command = true) (hd : utf8.Valid m.Data = true)
    (hf : utf8.Valid m.From = true) (hrm : utf8.Valid r.Message = true)
    (hrd : utf8.Valid r.Data = true) :
    (m.ToJSON.2 = none ∧ m0.FromJSON m.ToJSON.1 = (m, none)) ∧
    (r.ToJSON.2 = none ∧ r0.FromJSON r.ToJSON.1 = (r, none)) := by
  refine ⟨⟨rfl, ?_⟩, ⟨rfl, ?_⟩⟩
  · simp only [Message.ToJSON, Message.FromJSON, Unmarshal_message m hc hd hf]
    rfl
  · simp only [Response.ToJSON, Response.FromJSON, Unmarshal_response r hrm hrd]
    rfl

theorem json_round_trip_valid_utf8_witness :
    utf8.Valid (goStr "ECHO") = true ∧ utf8.Valid (goStr "Hello \"World\"\n€") = true ∧
    utf8.Valid (goStr "alice") = true ∧ utf8.Valid (goStr "Success") = true ∧
    utf8.Valid (goStr "test <data>") = true ∧
    (Message.ToJSON ⟨goStr "ECHO", goStr "Hello \"World\"\n€", goStr "alice"⟩).2 = none ∧
    Message.zero.FromJSON
        (Message.ToJSON ⟨goStr "ECHO", goStr "Hello \"World\"\n€", goStr "alice"⟩).1 =
      (⟨goStr "ECHO", goStr "Hello \"World\"\n€", goStr "alice"⟩, none) ∧
    (Response.ToJSON ⟨true, goStr "Success", goStr "test <data>"⟩).2 = none ∧
    Response.zero.FromJSON (Response.ToJSON ⟨true, goStr "Success", goStr "test <data>"⟩).1 =
      (⟨true, goStr "Success", goStr "test <data>"⟩, none) := by
  have h := json_round_trip_valid_utf8
    ⟨goStr "ECHO", goStr "Hello \"World\"\n€", goStr "alice"⟩ Message.zero
    ⟨true, goStr "Success", goStr "test <data>"⟩ Response.zero
    (by decide) (by decide) (by decide) (by decide) (by decide)
  exact ⟨by decide, by decide, by decide, by decide, by decide, h.1.1, h.1.2, h.2.1, h.2.2⟩

/-- C2 (as stated) fails: a message whose data is the single byte 0xFF, which is not
valid UTF-8, is encoded with the escape of U+FFFD and decodes, without error, to a
message whose data is the three bytes of U+FFFD. -/
theorem json_round_trip_invalid_utf8 :
    Message.zero.FromJSON (Message.ToJSON ⟨goStr "ECHO", [0xFF], []⟩).1 =
      (⟨goStr "ECHO", [0xEF, 0xBF, 0xBD], []⟩, none) ∧
    (Message.zero.FromJSON (Message.ToJSON ⟨goStr "ECHO", [0xFF], []⟩).1).1 ≠
      ⟨goStr "ECHO", [0xFF], []⟩ := by
  decide

/-! ## Validation -/

theorem mapIndex_validCommands (c : GoString) :
    mapIndex validCommands c = decide (c ∈ [CmdEcho, CmdRegister, CmdMessage, CmdListUsers,
      CmdListMessages, CmdTime, CmdQuit]) := by
  by_cases h1 : c = CmdEcho
  · subst h1; decide
  by_cases h2 : c = CmdRegister
  · subst h2; decide
  by_cases h3 : c = CmdMessage
  · subst h3; decide
  by_cases h4 : c = CmdListUsers
  · subst h4; decide
  by_cases h5 : c = CmdListMessages
  · subst h5; decide
  by_cases h6 : c = CmdTime
  · subst h6; decide
  by_cases h7 : c = CmdQuit
  · subst h7; decide
  have e1 : (CmdEcho == c) = false := by simpa using fun h => h1 h.symm
  have e2 : (CmdRegister == c) = false := by simpa using fun h => h2 h.symm
  have e3 : (CmdMessage == c) = false := by simpa using fun h => h3 h.symm
  have e4 : (CmdListUsers == c) = false := by simpa using fun h => h4 h.symm
  have e5 : (CmdListMessages == c) = false := by simpa using fun h => h5 h.symm
  have e6 : (CmdTime == c) = false := by simpa using fun h => h6 h.symm
  have e7 : (CmdQuit == c) = false := by simpa using fun h => h7 h.symm
  simp [mapIndex, validCommands, List.find?, e1, e2, e3, e4, e5, e6, e7, h1, h2, h3, h4, h5,
    h6, h7]

theorem mapIndex_requiresData (c : GoString) :
    mapIndex requiresData c = decide (c ∈ [CmdEcho, CmdRegister, CmdMessage]) := by
  by_cases h1 : c = CmdEcho
  · subst h1; decide
  by_cases h2 : c = CmdRegister
  · subst h2; decide
  by_cases h3 : c = CmdMessage
  · subst h3; decide
  have e1 : (CmdEcho == c) = false := by simpa using fun h => h1 h.symm
  have e2 : (CmdRegister == c) = false := by simpa using fun h => h2 h.symm
  have e3 : (CmdMessage == c) = false := by simpa using fun h => h3 h.symm
  simp [mapIndex, requiresData, List.find?, e1, e2, e3, h1, h2, h3]

/-- The error of `Validate`, case by case. -/
theorem validate_eq (m : Message) :
    m.Validate =
      if m.Command = [] then some (goStr "command cannot be empty")
      else if m.Command ∉ [CmdEcho, CmdRegister, CmdMessage, CmdListUsers, CmdListMessages,
          CmdTime, CmdQuit] then some (goStr "unknown command: " ++ m.Command)
      else if m.Command ∈ [CmdEcho, CmdRegister, CmdMessage] ∧ m.Data = [] then
        some (goStr "command " ++ m.Command ++ goStr " requires data")
      else none := by
  unfold Message.Validate
  rw [mapIndex_validCommands, mapIndex_requiresData]
  by_cases h0 : m.Command = []
  · simp [h0]
  by_cases h1 : m.Command ∈ [CmdEcho, CmdRegister, CmdMessage, CmdListUsers, CmdListMessages,
      CmdTime, CmdQuit]
  · by_cases h2 : m.Command ∈ [CmdEcho, CmdRegister, CmdMessage]
    · by_cases h3 : m.Data = [] <;> simp [h0, h1, h2, h3]
    · simp [h0, h1, h2]
  · simp [h0, h1]

/-- A command that passes validation is answered with `success = true`. -/
theorem processCommand_success (s : Server) (client : Conn) (m : Message) (now : Time)
    (h : m.Command ∈ [CmdEcho, CmdRegister, CmdMessage, CmdListUsers, CmdListMessages,
      CmdTime, CmdQuit]) :
    (processCommand s client m now).2.Success = true := by
  unfold processCommand
  simp only [List.mem_cons, List.mem_singleton, List.not_mem_nil, or_false] at h
  split_ifs <;> simp_all [NewResponse]

/-- What `handleMessage` does after a read without error: a message that fails
validation is answered with the validation error and nothing else happens. -/
theorem handleMessage_invalid (s : Server) (client : Conn) (line : GoString) (now : Time)
    (e : GoString) (h : (Message.zero.FromJSON line).1.Validate = some e) :
    handleMessage s client line none now =
      (s, NewResponse false (goStr "Validation error: " ++ e) [], true) := by
  simp [handleMessage, h]

/-- What `handleMessage` does after a read without error: a message that passes
validation is dispatched. -/
theorem handleMessage_valid (s : Server) (client : Conn) (line : GoString) (now : Time)
    (h : (Message.zero.FromJSON line).1.Validate = none) :
    handleMessage s client line none now =
      ((processCommand s client (Message.zero.FromJSON line).1 now).1,
       (processCommand s client (Message.zero.FromJSON line).1 now).2,
       !decide ((Message.zero.FromJSON line).1.Command = CmdQuit)) := by
  simp [handleMessage, h]

/-- C1: `Validate` returns an error exactly when the command is empty, or is not one of
the seven commands, or is one of ECHO, REGISTER, MESSAGE with empty data; the reply of
the connection worker to a line has `success = false` exactly when `Validate` rejects the
decoded message; LIST_USERS, LIST_MESSAGES, TIME and QUIT pass validation with any data,
the empty one included. -/
theorem validate_rejects_iff :
    (∀ m : Message, m.Validate ≠ none ↔
      (m.Command = [] ∨
       m.Command ∉ [CmdEcho, CmdRegister, CmdMessage, CmdListUsers, CmdListMessages,
          CmdTime, CmdQuit] ∨
       (m.Command ∈ [CmdEcho, CmdRegister, CmdMessage] ∧ m.Data = []))) ∧
    (∀ (s : Server) (client : Conn) (line : GoString) (now : Time),
      (handleMessage s client line none now).2.1.Success = false ↔
        (Message.zero.FromJSON line).1.Validate ≠ none) ∧
    (∀ d f : GoString, (Message.mk CmdListUsers d f).Validate = none ∧
      (Message.mk CmdListMessages d f).Validate = none ∧
      (Message.mk CmdTime d f).Validate = none ∧
      (Message.mk CmdQuit d f).Validate = none) := by
  refine ⟨?_, ?_, ?_⟩
  · intro m
    rw [validate_eq]
    by_cases h0 : m.Command = []
    · simp [h0]
    by_cases h1 : m.Command ∈ [CmdEcho, CmdRegister, CmdMessage, CmdListUsers,
        CmdListMessages, CmdTime, CmdQuit]
    · by_cases h2 : m.Command ∈ [CmdEcho, CmdRegister, CmdMessage] ∧ m.Data = []
      · simp only [h0, h1, h2]; simp
      · rw [if_neg h0, if_neg (not_not.mpr h1), if_neg h2]
        simp only [ne_eq, not_true_eq_false, false_iff, not_or, not_not]
        exact ⟨h0, h1, h2⟩
    · simp [h0, h1]
  · intro s client line now
    cases hv : (Message.zero.FromJSON line).1.Validate with
    | some e => simp [handleMessage_invalid s client line now e hv, NewResponse]
    | none =>
      rw [handleMessage_valid s client line now hv]
      have hc : (Message.zero.FromJSON line).1.Command ∈ [CmdEcho, CmdRegister, CmdMessage,
          CmdListUsers, CmdListMessages, CmdTime, CmdQuit] := by
        have := validate_eq (Message.zero.FromJSON line).1
        rw [hv] at this
        by_contra hn
        by_cases h0 : (Message.zero.FromJSON line).1.Command = []
        · simp [h0] at this
        · simp [h0, hn] at this
      simp [processCommand_success s client _ now hc]
  · intro d f
    have a1 : CmdListUsers ≠ [] := by decide
    have a2 : CmdListMessages ≠ [] := by decide
    have a3 : CmdTime ≠ [] := by decide
    have a4 : CmdQuit ≠ [] := by decide
    have b1 : CmdListUsers ∈ [CmdEcho, CmdRegister, CmdMessage, CmdListUsers,
        CmdListMessages, CmdTime, CmdQuit] := by decide
    have b2 : CmdListMessages ∈ [CmdEcho, CmdRegister, CmdMessage, CmdListUsers,
        CmdListMessages, CmdTime, CmdQuit] := by decide
    have b3 : CmdTime ∈ [CmdEcho, CmdRegister, CmdMessage, CmdListUsers,
        CmdListMessages, CmdTime, CmdQuit] := by decide
    have b4 : CmdQuit ∈ [CmdEcho, CmdRegister, CmdMessage, CmdListUsers,
        CmdListMessages, CmdTime, CmdQuit] := by decide
    have c1 : CmdListUsers ∉ [CmdEcho, CmdRegister, CmdMessage] := by decide
    have c2 : CmdListMessages ∉ [CmdEcho, CmdRegister, CmdMessage] := by decide
    have c3 : CmdTime ∉ [CmdEcho, CmdRegister, CmdMessage] := by decide
    have c4 : CmdQuit ∉ [CmdEcho, CmdRegister, CmdMessage] := by decide
    simp only [validate_eq]
    refine ⟨?_, ?_, ?_, ?_⟩
    · rw [if_neg a1, if_neg (not_not.mpr b1), if_neg (fun h => c1 h.1)]
    · rw [if_neg a2, if_neg (not_not.mpr b2), if_neg (fun h => c2 h.1)]
    · rw [if_neg a3, if_neg (not_not.mpr b3), if_neg (fun h => c3 h.1)]
    · rw [if_neg a4, if_neg (not_not.mpr b4), if_neg (fun h => c4 h.1)]

/-! ## The connection worker -/

/-- C3: the reply to a line that `FromJSON` rejects. For the line "not json" the
decoder returns a syntax error, yet the worker sends the validation error of the empty
message; for a QUIT request whose data is a number the decoder returns a type error,
yet QUIT is dispatched and the loop ends; and no line at all is answered with
"Invalid message format". -/
theorem handleMessage_decode_failure :
    (Message.zero.FromJSON (goStr "not json\n")).2 = some json.Error.SyntaxError ∧
    handleMessage NewServer 1 (goStr "not json\n") none noon =
      (NewServer, NewResponse false (goStr "Validation error: command cannot be empty") [],
        true) ∧
    (Message.zero.FromJSON (goStr "\x7b\"command\":\"QUIT\",\"data\":5\x7d\n")).2 =
      some (json.Error.UnmarshalTypeError "number") ∧
    (handleMessage NewServer 1 (goStr "\x7b\"command\":\"QUIT\",\"data\":5\x7d\n") none
      noon).2 = (NewResponse true (goStr "Goodbye!") [], false) ∧
    (∀ (s : Server) (client : Conn) (line : GoString) (now : Time),
      (handleMessage s client line none now).2.1.Message ≠ goStr "Invalid message format") := by
  refine ⟨by decide, ?_, by decide, by decide, ?_⟩
  · have hv : (Message.zero.FromJSON (goStr "not json\n")).1.Validate =
        some (goStr "command cannot be empty") := by decide
    have e : goStr "Validation error: " ++ goStr "command cannot be empty" =
        goStr "Validation error: command cannot be empty" := by decide
    rw [handleMessage_invalid NewServer 1 _ noon _ hv, e]
  · intro s client line now
    cases hv : (Message.zero.FromJSON line).1.Validate with
    | some e =>
      rw [handleMessage_invalid s client line now e hv]
      have e1 : goStr "Validation error: " = 86 :: goStr "alidation error: " := by decide
      have e2 : goStr "Invalid message format" = 73 :: goStr "nvalid message format" := by
        decide
      simp only [NewResponse, e1, e2, List.cons_append, ne_eq, List.cons.injEq]
      omega
    | none =>
      rw [handleMessage_valid s client line now hv]
      simp only [processCommand]
      have e2 : goStr "Invalid message format" = 73 :: goStr "nvalid message format" := by
        decide
      have r1 : goStr "Registration successful. Welcome, " =
          82 :: goStr "egistration successful. Welcome, " := by decide
      split_ifs <;> simp only [NewResponse, ne_eq] <;>
        first
        | decide
        | (rw [e2, r1]; simp)

/-- C4 (as stated) fails: the reply to a request with the command "FOO" is the
validation error, not "Unknown command". -/
theorem unknown_command_reply_is_validation_error :
    (handleMessage NewServer 1 (goStr "\x7b\"command\":\"FOO\"\x7d\n") none noon).2.1 =
      NewResponse false (goStr "Validation error: unknown command: FOO") [] ∧
    (handleMessage NewServer 1 (goStr "\x7b\"command\":\"FOO\"\x7d\n") none noon).2.1.Message ≠
      goStr "Unknown command" := by
  decide

/-- C4 (as amended): a request whose command is not empty and not one of the seven
commands is answered by the worker with `success = false` and the message
"Validation error: unknown command: " followed by the command, nothing is dispatched
(the server is unchanged) and the loop goes on; "Unknown command" is what
`processCommand` itself returns for such a command. -/
theorem unknown_command_reply (s : Server) (client : Conn) (line : GoString) (now : Time)
    (h0 : (Message.zero.FromJSON line).1.Command ≠ [])
    (h1 : (Message.zero.FromJSON line).1.Command ∉ [CmdEcho, CmdRegister, CmdMessage,
      CmdListUsers, CmdListMessages, CmdTime, CmdQuit]) :
    handleMessage s client line none now =
      (s, NewResponse false (goStr "Validation error: unknown command: " ++
        (Message.zero.FromJSON line).1.Command) [], true) ∧
    processCommand s client (Message.zero.FromJSON line).1 now =
      (s, NewResponse false (goStr "Unknown command") []) := by
  constructor
  · have hv : (Message.zero.FromJSON line).1.Validate =
        some (goStr "unknown command: " ++ (Message.zero.FromJSON line).1.Command) := by
      rw [validate_eq, if_neg h0, if_pos h1]
    rw [handleMessage_invalid s client line now _ hv]
    have e : goStr "Validation error: " ++ goStr "unknown command: " =
        goStr "Validation error: unknown command: " := by decide
    rw [← List.append_assoc, e]
  · simp only [List.mem_cons, List.mem_singleton, List.not_mem_nil, or_false, not_or] at h1
    simp [processCommand, h1]

theorem unknown_command_reply_witness :
    (Message.zero.FromJSON (goStr "\x7b\"command\":\"FOO\"\x7d\n")).1.Command ≠ [] ∧
    (Message.zero.FromJSON (goStr "\x7b\"command\":\"FOO\"\x7d\n")).1.Command ∉
      [CmdEcho, CmdRegister, CmdMessage, CmdListUsers, CmdListMessages, CmdTime, CmdQuit] ∧
    handleMessage NewServer 1 (goStr "\x7b\"command\":\"FOO\"\x7d\n") none noon =
      (NewServer, NewResponse false (goStr "Validation error: unknown command: " ++
        (Message.zero.FromJSON (goStr "\x7b\"command\":\"FOO\"\x7d\n")).1.Command) [], true) ∧
    processCommand NewServer 1 (Message.zero.FromJSON (goStr "\x7b\"command\":\"FOO\"\x7d\n")).1
      noon = (NewServer, NewResponse false (goStr "Unknown command") []) :=
  ⟨by decide, by decide,
    unknown_command_reply NewServer 1 (goStr "\x7b\"command\":\"FOO\"\x7d\n") noon
      (by decide) (by decide)⟩

/-! ## The message history -/

theorem storeMessage_messages (s : Server) (frm content : GoString) (now : Time) :
    (storeMessage s frm content now).messages =
      (s.messages ++ [StoredMessage.mk frm content now]).drop (s.messages.length + 1 - 100) := by
  unfold storeMessage
  simp only [List.length_append, List.length_singleton]
  split_ifs with h
  · rfl
  · have e : s.messages.length + 1 - 100 = 0 := by omega
    rw [e, List.drop_zero]

/-- After a sequence of stores into a history of at most 100 entries, the history is
the last 100 of the old entries followed by the new ones. -/
theorem storeAll_messages (entries : List StoredMessage) (s : Server)
    (h : s.messages.length ≤ 100) :
    (storeAll s entries).messages = lastN 100 (s.messages ++ entries) := by
  induction entries generalizing s with
  | nil =>
    simp only [storeAll, List.foldl_nil, List.append_nil, lastN]
    have e : s.messages.length - 100 = 0 := by omega
    rw [e, List.drop_zero]
  | cons e rest ih =>
    have hstep : (storeMessage s e.From e.Content e.Timestamp).messages =
        (s.messages ++ [e]).drop (s.messages.length + 1 - 100) :=
      storeMessage_messages s e.From e.Content e.Timestamp
    have hlen : (storeMessage s e.From e.Content e.Timestamp).messages.length ≤ 100 := by
      rw [hstep]
      simp only [List.length_drop, List.length_append, List.length_singleton]
      omega
    have hfold : storeAll s (e :: rest) =
        storeAll (storeMessage s e.From e.Content e.Timestamp) rest := rfl
    rw [hfold, ih _ hlen, hstep]
    unfold lastN
    have hd : s.messages.length + 1 - 100 ≤ (s.messages ++ [e]).length := by
      simp only [List.length_append, List.length_singleton]
      omega
    rw [← List.drop_append_of_le_length hd, List.drop_drop]
    simp only [List.length_drop, List.length_append, List.length_singleton,
      List.length_cons, List.append_assoc, List.singleton_append]
    have hx : s.messages.length + 1 - 100 +
        (s.messages.length + (rest.length + 1) - (s.messages.length + 1 - 100) - 100) =
        s.messages.length + (rest.length + 1) - 100 := by omega
    rw [hx]

theorem formatLoop_pos (l : List StoredMessage) (i : Nat) (acc : GoString) (hi : 0 < i) :
    formatLoop i l acc = acc ++ l.flatMap (fun m => [10] ++ formatMessage m) := by
  induction l generalizing i acc with
  | nil => simp [formatLoop]
  | cons m rest ih =>
    rw [formatLoop, if_pos hi, ih (i + 1) _ (by omega)]
    simp [List.flatMap_cons, List.append_assoc]

/-- The formatting loop of `getRecentMessages` computes the rendering of the
specification. -/
theorem formatLoop_eq_render (l : List StoredMessage) :
    formatLoop 0 l [] = renderMessages l := by
  cases l with
  | nil => rfl
  | cons m rest =>
    rw [formatLoop, if_neg (by omega), formatLoop_pos rest 1 _ (by omega)]
    simp [renderMessages, stringsJoin, List.flatMap_map]

/-- `getRecentMessages`, case by case. -/
theorem getRecentMessages_eq (s : Server) (n : Nat) :
    getRecentMessages s n =
      if s.messages = [] then goStr "No messages yet"
      else renderMessages (lastN n s.messages) := by
  unfold getRecentMessages
  by_cases h : s.messages = []
  · simp [h]
  · have hl : s.messages.length ≠ 0 := fun e => h (List.length_eq_zero.mp e)
    rw [if_neg hl, if_neg h, formatLoop_eq_render]
    unfold lastN
    congr 2
    split_ifs <;> omega

theorem lastN_lastN {α : Type} (a b : Nat) (l : List α) :
    lastN a (lastN b l) = lastN (min a b) l := by
  unfold lastN
  rw [List.drop_drop, List.length_drop]
  congr 1
  omega

theorem lastN_length {α : Type} (k : Nat) (l : List α) :
    (lastN k l).length = min k l.length := by
  unfold lastN
  rw [List.length_drop]
  omega

theorem formatMessage_head (m : StoredMessage) :
    ∃ t, formatMessage m = 91 :: t := by
  exact ⟨_, rfl⟩

theorem renderMessages_ne_empty_text (l : List StoredMessage) (h : l ≠ []) :
    renderMessages l ≠ goStr "No messages yet" := by
  cases l with
  | nil => exact absurd rfl h
  | cons m rest =>
    have e : goStr "No messages yet" = 78 :: goStr "o messages yet" := by decide
    obtain ⟨t, ht⟩ := formatMessage_head m
    simp only [renderMessages, stringsJoin, List.map_cons, ht, e, List.cons_append, ne_eq,
      List.cons.injEq]
    omega

/-- C5 (as stated) fails on the empty store: `getRecentMessages` returns the text
"No messages yet", which is not the rendering of the last zero entries (the empty
text, which it does return for `n = 0` on a store that is not empty). -/
theorem recent_of_empty_store :
    getRecentMessages (storeAll NewServer []) 20 = goStr "No messages yet" ∧
    getRecentMessages (storeAll NewServer []) 20 ≠
      renderMessages (lastN (min 20 (min 0 100)) ([] : List StoredMessage)) ∧
    getRecentMessages (storeAll NewServer [⟨goStr "a", goStr "x", noon⟩]) 0 =
      renderMessages (lastN (min 0 (min 1 100)) [⟨goStr "a", goStr "x", noon⟩]) := by
  decide

/-- C5 (as amended): starting from an empty history, after the stores of `entries`
(N of them) the history holds exactly the last min(N, 100) entries in the order they
were stored, and for every `n`, `getRecentMessages n` is the rendering, in that
order, of the last min(n, min(N, 100)) of them when N is at least 1, and the text
"No messages yet" when N is 0. -/
theorem history_bound_and_window (s0 : Server) (entries : List StoredMessage) (n : Nat) :
    (storeAll { s0 with messages := [] } entries).messages =
      lastN (min entries.length 100) entries ∧
    getRecentMessages (storeAll { s0 with messages := [] } entries) n =
      (if entries = [] then goStr "No messages yet"
       else renderMessages (lastN (min n (min entries.length 100)) entries)) ∧
    ((storeAll { s0 with messages := [] } entries).messages.length = min entries.length 100) := by
  have hm : (storeAll { s0 with messages := [] } entries).messages = lastN 100 entries := by
    rw [storeAll_messages entries _ (by simp)]
    simp
  have h100 : lastN (min entries.length 100) entries = lastN 100 entries := by
    unfold lastN
    congr 1
    omega
  refine ⟨by rw [hm, h100], ?_, ?_⟩
  · rw [getRecentMessages_eq, hm]
    by_cases he : entries = []
    · subst he
      simp [lastN]
    · have hne : lastN 100 entries ≠ [] := by
        intro e0
        have := congrArg List.length e0
        rw [lastN_length] at this
        have hpos : 0 < entries.length := List.length_pos.mpr he
        simp only [List.length_nil] at this
        omega
      rw [if_neg hne, if_neg he, lastN_lastN]
      unfold lastN
      congr 2
      omega
  · rw [hm, lastN_length]
    omega

/-- C6: a MESSAGE request with a payload `p` that is not empty, whatever its `from`
field, passes validation and adds exactly one entry at the tail of the history (the
oldest entries are dropped when that makes more than 100), with content `p` and with
the current username of the session as sender, and is answered with `success = true`;
the username is "anonymous" for a session that has just been accepted. -/
theorem message_appends_entry (s : Server) (client : Conn) (p frm : GoString) (now : Time)
    (hp : p ≠ []) :
    (Message.mk CmdMessage p frm).Validate = none ∧
    (processCommand s client ⟨CmdMessage, p, frm⟩ now).1.messages =
      (if s.messages.length < 100 then s.messages ++ [StoredMessage.mk (s.username client) p now]
       else (s.messages ++ [StoredMessage.mk (s.username client) p now]).drop
        (s.messages.length + 1 - 100)) ∧
    (processCommand s client ⟨CmdMessage, p, frm⟩ now).1.messages.getLast? =
      some ⟨s.username client, p, now⟩ ∧
    (processCommand s client ⟨CmdMessage, p, frm⟩ now).2 =
      NewResponse true (goStr "Message broadcasted") [] ∧
    (processCommand s client ⟨CmdMessage, p, frm⟩ now).2.Success = true ∧
    (processCommand (acceptConnection s client) client ⟨CmdMessage, p, frm⟩
      now).1.messages.getLast? = some ⟨goStr "anonymous", p, now⟩ := by
  have h1 : CmdMessage ≠ CmdEcho := by decide
  have h2 : CmdMessage ≠ CmdRegister := by decide
  have hpc : ∀ t : Server, processCommand t client ⟨CmdMessage, p, frm⟩ now =
      (storeMessage t (t.username client) p now,
        NewResponse true (goStr "Message broadcasted") []) := by
    intro t
    simp [processCommand, h1, h2]
  have hlast : ∀ t : Server, (storeMessage t (t.username client) p now).messages.getLast? =
      some ⟨t.username client, p, now⟩ := by
    intro t
    rw [storeMessage_messages]
    have hlt : t.messages.length + 1 - 100 <
        (t.messages ++ [StoredMessage.mk (t.username client) p now]).length := by
      simp only [List.length_append, List.length_singleton]
      omega
    rw [List.getLast?_drop, if_neg (by omega)]
    simp
  refine ⟨?_, ?_, ?_, ?_, ?_, ?_⟩
  · rw [validate_eq]
    have a : CmdMessage ≠ [] := by decide
    have b : CmdMessage ∈ [CmdEcho, CmdRegister, CmdMessage, CmdListUsers, CmdListMessages,
        CmdTime, CmdQuit] := by decide
    rw [if_neg a, if_neg (not_not.mpr b), if_neg (fun h => hp h.2)]
  · rw [hpc]
    simp only [storeMessage_messages]
    split_ifs with hlen
    · have e : s.messages.length + 1 - 100 = 0 := by omega
      rw [e, List.drop_zero]
    · rfl
  · rw [hpc]; exact hlast s
  · rw [hpc]
  · rw [hpc]; rfl
  · rw [hpc]
    have := hlast (acceptConnection s client)
    simpa [acceptConnection] using this

theorem message_appends_entry_witness :
    goStr "hi" ≠ [] ∧
    (processCommand (acceptConnection NewServer 1) 1 ⟨CmdMessage, goStr "hi", goStr "mallory"⟩
        noon).1.messages.getLast? = some ⟨goStr "anonymous", goStr "hi", noon⟩ ∧
    (processCommand NewServer 1 ⟨CmdMessage, goStr "hi", goStr "mallory"⟩ noon).2.Success =
      true :=
  ⟨by decide,
   (message_appends_entry NewServer 1 (goStr "hi") (goStr "mallory") noon
      (by decide)).2.2.2.2.2,
   (message_appends_entry NewServer 1 (goStr "hi") (goStr "mallory") noon
      (by decide)).2.2.2.2.1⟩

/-! ## Dispatch -/

theorem processCommand_sent (s : Server) (client : Conn) (m : Message) (now : Time) :
    (processCommand s client m now).1.sent = s.sent := by
  unfold processCommand
  split_ifs <;> first
    | rfl
    | (simp only [storeMessage]; split_ifs <;> rfl)

theorem handleMessage_sent (s : Server) (client : Conn) (line : GoString) (now : Time) :
    (handleMessage s client line none now).1.sent = s.sent := by
  cases hv : (Message.zero.FromJSON line).1.Validate with
  | some e => rw [handleMessage_invalid s client line now e hv]
  | none => rw [handleMessage_valid s client line now hv]; exact processCommand_sent _ _ _ _

theorem sendResponse_sent (s : Server) (client : Conn) (r : Response) :
    (sendResponse s client r).sent = s.sent ++ [(client, r.ToJSON.1)] := rfl

/-- A pass of the loop of the worker of `client` writes one response to the connection
of `client` and nothing to any other connection. -/
theorem handleLine_sent (s : Server) (client : Conn) (line : GoString) (now : Time) :
    (handleLine s client line none now).1.sent =
      s.sent ++ [(client, (handleMessage s client line none now).2.1.ToJSON.1)] := by
  simp only [handleLine, ne_eq, not_true_eq_false, if_false, sendResponse_sent,
    handleMessage_sent]

/-- C7: the code at scenario B. Connections 1 and 2 are registered as "Alice" and
"Bob"; after the worker of connection 1 has handled Alice's MESSAGE "hi", the message
is in the history and Alice has her reply, but nothing has been written to Bob's
connection beyond his welcome and his registration reply; and in general a pass of a
worker's loop writes to no connection but its own. -/
theorem message_is_not_broadcast :
    scenarioRegistered.clients = [1, 2] ∧
    scenarioRegistered.username 1 = goStr "Alice" ∧
    scenarioRegistered.username 2 = goStr "Bob" ∧
    scenarioChat.messages = [⟨goStr "Alice", goStr "hi", noon⟩] ∧
    scenarioChat.sentTo 1 = scenarioRegistered.sentTo 1 ++
      [(NewResponse true (goStr "Message broadcasted") []).ToJSON.1] ∧
    scenarioChat.sentTo 2 = scenarioRegistered.sentTo 2 ∧
    scenarioChat.sentTo 2 =
      [(NewResponse true (goStr "Welcome to TCP/IP Educational Server!") []).ToJSON.1,
       (NewResponse true (goStr "Registration successful. Welcome, Bob!") []).ToJSON.1] ∧
    (∀ (s : Server) (client c : Conn) (line : GoString) (err : Option GoString) (now : Time),
      c ≠ client → (handleLine s client line err now).1.sentTo c = s.sentTo c) := by
  refine ⟨by decide, by decide, by decide, by decide, by decide, by decide, by decide, ?_⟩
  intro s client c line err now hc
  cases err with
  | some e => simp [handleLine]
  | none =>
    have hcc : (client == c) = false := by
      simpa using fun h => hc h.symm
    simp only [Server.sentTo, handleLine_sent, List.filter_append, List.filter_cons,
      List.filter_nil, hcc, Bool.false_eq_true, if_false, List.append_nil]

theorem includes_join (l : List GoString) (x sep : GoString) (h : x ∈ l) :
    includes (stringsJoin l sep) x := by
  cases l with
  | nil => simp at h
  | cons a rest =>
    rcases List.mem_cons.mp h with rfl | hr
    · exact ⟨[], rest.flatMap (fun y => sep ++ y), by simp [stringsJoin]⟩
    · obtain ⟨l1, l2, rfl⟩ := List.append_of_mem hr
      refine ⟨a ++ l1.flatMap (fun y => sep ++ y) ++ sep, l2.flatMap (fun y => sep ++ y), ?_⟩
      simp [stringsJoin, List.flatMap_append, List.flatMap_cons, List.append_assoc]

/-- C8: a REGISTER request with a name that is not empty passes validation, is
answered with `success = true` and a message that contains the name, and sets the
username of the session to the name, whatever it was before, without changing the set
of connections; and in every state in which that session is connected and has that
username, LIST_USERS issued on any connection is answered with `success = true` and
data that contains the name. -/
theorem register_then_list_users (s : Server) (client : Conn) (name frm : GoString)
    (now : Time) (hne : name ≠ []) :
    (Message.mk CmdRegister name frm).Validate = none ∧
    (processCommand s client ⟨CmdRegister, name, frm⟩ now).2.Success = true ∧
    includes (processCommand s client ⟨CmdRegister, name, frm⟩ now).2.Message name ∧
    (processCommand s client ⟨CmdRegister, name, frm⟩ now).1.username client = name ∧
    (processCommand s client ⟨CmdRegister, name, frm⟩ now).1.clients = s.clients ∧
    (∀ (t : Server) (other : Conn) (d f : GoString) (now1 : Time),
      client ∈ t.clients → t.username client = name →
      (processCommand t other ⟨CmdListUsers, d, f⟩ now1).2.Success = true ∧
      includes (processCommand t other ⟨CmdListUsers, d, f⟩ now1).2.Data name) := by
  have h1 : CmdRegister ≠ CmdEcho := by decide
  have hpc : processCommand s client ⟨CmdRegister, name, frm⟩ now =
      ({ s with username := fun c => if c = client then name else s.username c },
       NewResponse true (goStr "Registration successful. Welcome, " ++ name ++ goStr "!") []) := by
    simp [processCommand, h1]
  refine ⟨?_, ?_, ?_, ?_, ?_, ?_⟩
  · rw [validate_eq]
    have a : CmdRegister ≠ [] := by decide
    have b : CmdRegister ∈ [CmdEcho, CmdRegister, CmdMessage, CmdListUsers, CmdListMessages,
        CmdTime, CmdQuit] := by decide
    rw [if_neg a, if_neg (not_not.mpr b), if_neg (fun h => hne h.2)]
  · rw [hpc]; rfl
  · rw [hpc]
    exact ⟨goStr "Registration successful. Welcome, ", goStr "!", rfl⟩
  · rw [hpc]; simp
  · rw [hpc]
  · intro t other d f now1 hmem hname
    have l1 : CmdListUsers ≠ CmdEcho := by decide
    have l2 : CmdListUsers ≠ CmdRegister := by decide
    have l3 : CmdListUsers ≠ CmdMessage := by decide
    have hl : processCommand t other ⟨CmdListUsers, d, f⟩ now1 =
        (t, NewResponse true (goStr "Online users")
          (stringsJoin (getConnectedUsers t) (goStr ", "))) := by
      simp [processCommand, l1, l2, l3]
    rw [hl]
    refine ⟨rfl, ?_⟩
    apply includes_join
    rw [← hname]
    exact List.mem_map_of_mem _ hmem

theorem register_then_list_users_witness :
    goStr "Alice" ≠ [] ∧
    (processCommand (acceptConnection NewServer 1) 1 ⟨CmdRegister, goStr "Alice", []⟩
      noon).2.Success = true ∧
    includes (processCommand (acceptConnection NewServer 1) 1 ⟨CmdRegister, goStr "Alice", []⟩
      noon).2.Message (goStr "Alice") ∧
    includes (processCommand
      (processCommand (acceptConnection NewServer 1) 1 ⟨CmdRegister, goStr "Alice", []⟩ noon).1
      2 ⟨CmdListUsers, [], []⟩ noon).2.Data (goStr "Alice") :=
  ⟨by decide,
   (register_then_list_users (acceptConnection NewServer 1) 1 (goStr "Alice") [] noon
      (by decide)).2.1,
   (register_then_list_users (acceptConnection NewServer 1) 1 (goStr "Alice") [] noon
      (by decide)).2.2.1,
   ((register_then_list_users (acceptConnection NewServer 1) 1 (goStr "Alice") [] noon
      (by decide)).2.2.2.2.2
      (processCommand (acceptConnection NewServer 1) 1 ⟨CmdRegister, goStr "Alice", []⟩ noon).1
      2 [] [] noon (by decide) (by decide)).2⟩

/-- C9: an ECHO request with a payload `p` that is not empty passes validation and is
answered with `success = true` and data exactly `p`; the server (the history and
every session) is unchanged. -/
theorem echo_returns_payload (s : Server) (client : Conn) (p frm : GoString) (now : Time)
    (hp : p ≠ []) :
    (Message.mk CmdEcho p frm).Validate = none ∧
    processCommand s client ⟨CmdEcho, p, frm⟩ now =
      (s, NewResponse true (goStr "Echo response") p) ∧
    (processCommand s client ⟨CmdEcho, p, frm⟩ now).2.Success = true ∧
    (processCommand s client ⟨CmdEcho, p, frm⟩ now).2.Data = p ∧
    (processCommand s client ⟨CmdEcho, p, frm⟩ now).1 = s := by
  have hpc : processCommand s client ⟨CmdEcho, p, frm⟩ now =
      (s, NewResponse true (goStr "Echo response") p) := by
    simp [processCommand]
  refine ⟨?_, hpc, by rw [hpc]; rfl, by rw [hpc]; rfl, by rw [hpc]⟩
  rw [validate_eq]
  have a : CmdEcho ≠ [] := by decide
  have b : CmdEcho ∈ [CmdEcho, CmdRegister, CmdMessage, CmdListUsers, CmdListMessages,
      CmdTime, CmdQuit] := by decide
  rw [if_neg a, if_neg (not_not.mpr b), if_neg (fun h => hp h.2)]

theorem echo_returns_payload_witness :
    goStr "ping" ≠ [] ∧
    (processCommand NewServer 1 ⟨CmdEcho, goStr "ping", []⟩ noon).2.Success = true ∧
    (processCommand NewServer 1 ⟨CmdEcho, goStr "ping", []⟩ noon).2.Data = goStr "ping" :=
  ⟨by decide,
   (echo_returns_payload NewServer 1 (goStr "ping") [] noon (by decide)).2.2.1,
   (echo_returns_payload NewServer 1 (goStr "ping") [] noon (by decide)).2.2.2.1⟩

/-- C10: LIST_MESSAGES passes validation with any data, leaves the server unchanged
and is answered with `success = true`; its data is the text "No messages yet" exactly
when the history is empty, and otherwise the rendering of the last min(20, size)
entries: the texts "[HH:MM:SS] sender: content" of the entries, in order, with a
single newline between consecutive ones and none before the first or after the last.
The text of an entry is spelled out byte by byte: an opening bracket, the two decimal
digits of the hour, a colon, the two decimal digits of the minute, a colon, the two
decimal digits of the second, a closing bracket, a space, the sender, a colon, a
space and the content; and a history of two entries is rendered in full. -/
theorem list_messages_reply (s : Server) (client : Conn) (d f : GoString) (now : Time) :
    (Message.mk CmdListMessages d f).Validate = none ∧
    (processCommand s client ⟨CmdListMessages, d, f⟩ now).1 = s ∧
    (processCommand s client ⟨CmdListMessages, d, f⟩ now).2.Success = true ∧
    ((processCommand s client ⟨CmdListMessages, d, f⟩ now).2.Data = goStr "No messages yet" ↔
      s.messages = []) ∧
    (processCommand s client ⟨CmdListMessages, d, f⟩ now).2.Data =
      (if s.messages = [] then goStr "No messages yet"
       else renderMessages (lastN (min 20 s.messages.length) s.messages)) ∧
    (∀ (m : StoredMessage) (rest : List StoredMessage),
      renderMessages [] = [] ∧ renderMessages [m] = formatMessage m ∧
      renderMessages (m :: rest) =
        formatMessage m ++ rest.flatMap (fun x => goStr "\n" ++ formatMessage x) ∧
      formatMessage m =
        [91, 48 + m.Timestamp.hour.val / 10, 48 + m.Timestamp.hour.val % 10, 58,
          48 + m.Timestamp.minute.val / 10, 48 + m.Timestamp.minute.val % 10, 58,
          48 + m.Timestamp.second.val / 10, 48 + m.Timestamp.second.val % 10, 93, 32] ++
          m.From ++ [58, 32] ++ m.Content ∧
      (∃ h1 h2 m1 m2 s1 s2 : Nat,
        (h1 ≤ 9 ∧ h2 ≤ 9 ∧ m1 ≤ 9 ∧ m2 ≤ 9 ∧ s1 ≤ 9 ∧ s2 ≤ 9) ∧
        (10 * h1 + h2 = m.Timestamp.hour.val ∧ 10 * m1 + m2 = m.Timestamp.minute.val ∧
          10 * s1 + s2 = m.Timestamp.second.val) ∧
        formatMessage m =
          goStr "[" ++ [48 + h1, 48 + h2] ++ goStr ":" ++ [48 + m1, 48 + m2] ++ goStr ":" ++
            [48 + s1, 48 + s2] ++ goStr "] " ++ m.From ++ goStr ": " ++ m.Content)) ∧
    (processCommand
        (storeAll NewServer
          [StoredMessage.mk (goStr "alice") (goStr "hi") ⟨9, 5, 7, []⟩,
           StoredMessage.mk (goStr "bob") (goStr "see you") ⟨23, 40, 0, []⟩])
        client ⟨CmdListMessages, d, f⟩ now).2.Data =
      goStr "[09:05:07] alice: hi\n[23:40:00] bob: see you" := by
  have l1 : CmdListMessages ≠ CmdEcho := by decide
  have l2 : CmdListMessages ≠ CmdRegister := by decide
  have l3 : CmdListMessages ≠ CmdMessage := by decide
  have l4 : CmdListMessages ≠ CmdListUsers := by decide
  have hpc : ∀ s0 : Server, processCommand s0 client ⟨CmdListMessages, d, f⟩ now =
      (s0, NewResponse true (goStr "Recent messages") (getRecentMessages s0 20)) := by
    intro s0
    simp [processCommand, l1, l2, l3, l4]
  have hmin : lastN (min 20 s.messages.length) s.messages = lastN 20 s.messages := by
    unfold lastN
    congr 1
    omega
  refine ⟨?_, by rw [hpc], by rw [hpc]; rfl, ?_, ?_, ?_, ?_⟩
  · rw [validate_eq]
    have a : CmdListMessages ≠ [] := by decide
    have b : CmdListMessages ∈ [CmdEcho, CmdRegister, CmdMessage, CmdListUsers,
        CmdListMessages, CmdTime, CmdQuit] := by decide
    have c : CmdListMessages ∉ [CmdEcho, CmdRegister, CmdMessage] := by decide
    rw [if_neg a, if_neg (not_not.mpr b), if_neg (fun h => c h.1)]
  · rw [hpc]
    simp only [NewResponse, getRecentMessages_eq]
    by_cases he : s.messages = []
    · simp [he]
    · rw [if_neg he]
      have hne : lastN 20 s.messages ≠ [] := by
        intro e0
        have := congrArg List.length e0
        rw [lastN_length] at this
        have hpos : 0 < s.messages.length := List.length_pos.mpr he
        simp only [List.length_nil] at this
        omega
      simp only [he, iff_false]
      exact renderMessages_ne_empty_text _ hne
  · rw [hpc, hmin]
    exact getRecentMessages_eq s 20
  · intro m rest
    have e10 : goStr "\n" = [10] := by decide
    have e1 : goStr "[" = [91] := by decide
    have e2 : goStr ":" = [58] := by decide
    have e3 : goStr "] " = [93, 32] := by decide
    have e4 : goStr ": " = [58, 32] := by decide
    have hh := m.Timestamp.hour.isLt
    have hm := m.Timestamp.minute.isLt
    have hs := m.Timestamp.second.isLt
    refine ⟨rfl, by simp [renderMessages, stringsJoin], ?_, ?_, ?_⟩
    · simp [renderMessages, stringsJoin, List.flatMap_map, e10]
    · simp [formatMessage, Time.FormatClock, twoDigits, e3, e4]
    · refine ⟨m.Timestamp.hour.val / 10, m.Timestamp.hour.val % 10,
        m.Timestamp.minute.val / 10, m.Timestamp.minute.val % 10,
        m.Timestamp.second.val / 10, m.Timestamp.second.val % 10,
        ⟨by omega, by omega, by omega, by omega, by omega, by omega⟩,
        ⟨by omega, by omega, by omega⟩, ?_⟩
      simp [formatMessage, Time.FormatClock, twoDigits, e1, e2, e3, e4]
  · rw [hpc]
    decide

/-! ## The line terminator -/

theorem hex_ne_newline (n : Nat) : json.hex n ≠ 10 := by
  unfold json.hex
  split_ifs <;> omega

/-- Nothing `quoteStep` writes is a newline byte. -/
theorem quoteStep_no_newline (b : Nat) (t : List Nat) : 10 ∉ (json.quoteStep (b :: t)).1 := by
  unfold json.quoteStep
  have hx := hex_ne_newline
  by_cases hb : b < utf8.RuneSelf
  · simp only [hb, if_true]
    by_cases hs : json.htmlSafeSet b = true
    · simp only [hs, if_true, List.mem_singleton]
      simp only [json.htmlSafeSet, decide_eq_true_eq] at hs
      omega
    simp only [hs, Bool.false_eq_true, if_false]
    split_ifs with c1 c2 c3 c4 c5 c6
    · simp only [List.mem_cons, List.mem_singleton, List.not_mem_nil, or_false]
      omega
    · decide
    · decide
    · decide
    · decide
    · decide
    · simp only [List.mem_cons, List.mem_singleton, List.not_mem_nil, or_false, not_or]
      exact ⟨by omega, by omega, by omega, by omega, fun h => hx _ h.symm,
        fun h => hx _ h.symm⟩
  · simp only [hb, if_false, DecodeRune_take4]
    cases hd : utf8.DecodeRune (b :: t) with
    | mk c size =>
      simp only
      by_cases hv : c = utf8.RuneError ∧ size = 1
      · rw [if_pos hv]; decide
      have hm := DecodeRune_multi (b :: t) c size hd hv
        (fun p0 t' e => by
          have : p0 = b := by injection e with e1 _; exact e1.symm
          subst this
          exact Nat.le_of_not_lt hb)
        (List.cons_ne_nil b t)
      rw [if_neg hv]
      by_cases h28 : c = 0x2028 ∨ c = 0x2029
      · rw [if_pos h28]
        simp only [List.mem_cons, List.mem_singleton, List.not_mem_nil, or_false, not_or]
        exact ⟨by omega, by omega, by omega, by omega, by omega, fun h => hx _ h.symm⟩
      · rw [if_neg h28]
        intro hmem
        have := (hm.2.2.2.2.1 10 hmem).1
        omega

/-- The body of a string literal that `appendString` writes holds no newline byte. -/
theorem quoteAux_no_newline (fuel : Nat) (s : List Nat) : 10 ∉ json.quoteAux fuel s := by
  induction fuel generalizing s with
  | zero => simp [json.quoteAux]
  | succ fuel ih =>
    cases s with
    | nil => simp [json.quoteAux]
    | cons b t =>
      simp only [json.quoteAux, List.mem_append, not_or]
      exact ⟨quoteStep_no_newline b t, ih _⟩

theorem marshal_message_no_newline (m : Message) : 10 ∉ m.marshal := by
  have q := fun s => quoteAux_no_newline (List.length s) s
  have e1 : 10 ∉ goStr "\x7b\"command\":" := by decide
  have e2 : 10 ∉ goStr ",\"data\":" := by decide
  have e3 : 10 ∉ goStr ",\"from\":" := by decide
  have e4 : 10 ∉ goStr "\x7d" := by decide
  simp only [Message.marshal, json.appendString, json.quoteBody, List.mem_append,
    List.mem_cons, List.mem_singleton, List.not_mem_nil, or_false, not_or, e1, e2, e3, e4, q,
    not_false_eq_true, true_and, and_true]
  omega

theorem marshal_response_no_newline (r : Response) : 10 ∉ r.marshal := by
  have q := fun s => quoteAux_no_newline (List.length s) s
  have e1 : 10 ∉ goStr "\x7b\"success\":" := by decide
  have e2 : 10 ∉ goStr ",\"message\":" := by decide
  have e3 : 10 ∉ goStr ",\"data\":" := by decide
  have e4 : 10 ∉ goStr "\x7d" := by decide
  have e5 : 10 ∉ (if r.Success then goStr "true" else goStr "false") := by
    cases r.Success <;> decide
  simp only [Response.marshal, json.appendString, json.appendBool, json.quoteBody,
    List.mem_append, List.mem_cons, List.mem_singleton, List.not_mem_nil, or_false, not_or,
    e1, e2, e3, e4, e5, q, not_false_eq_true, true_and, and_true]
  omega

theorem ReadString_line (delim : Nat) (body rest : List Nat) (h : delim ∉ body) :
    ReadString delim (body ++ delim :: rest) = some (body ++ [delim], rest) := by
  induction body with
  | nil => simp [ReadString]
  | cons c l ih =>
    have hc : c ≠ delim := fun e => h (e ▸ List.mem_cons_self c l)
    have hl : delim ∉ l := fun e => h (List.mem_cons_of_mem c e)
    simp [ReadString, hc, ih hl]

/-- C11: for every message and every response, whatever bytes its strings hold, the
bytes `ToJSON` returns (without error) are a body that holds no newline byte followed
by a single newline byte: the newline occurs exactly once, at the end; so
`ReadString` with the newline as delimiter, on these bytes followed by anything,
returns exactly these bytes and leaves what follows. -/
theorem toJSON_single_terminator (m : Message) (r : Response) (rest : List Nat) :
    (m.ToJSON.2 = none ∧ m.ToJSON.1 = m.marshal ++ [10] ∧ 10 ∉ m.marshal ∧
      m.ToJSON.1.count 10 = 1 ∧ m.ToJSON.1.getLast? = some 10 ∧
      ReadString 10 (m.ToJSON.1 ++ rest) = some (m.ToJSON.1, rest)) ∧
    (r.ToJSON.2 = none ∧ r.ToJSON.1 = r.marshal ++ [10] ∧ 10 ∉ r.marshal ∧
      r.ToJSON.1.count 10 = 1 ∧ r.ToJSON.1.getLast? = some 10 ∧
      ReadString 10 (r.ToJSON.1 ++ rest) = some (r.ToJSON.1, rest)) := by
  have hm := marshal_message_no_newline m
  have hr := marshal_response_no_newline r
  refine ⟨⟨rfl, rfl, hm, ?_, ?_, ?_⟩, ⟨rfl, rfl, hr, ?_, ?_, ?_⟩⟩
  · simp only [Message.ToJSON, List.count_append, List.count_eq_zero_of_not_mem hm]
    rfl
  · simp [Message.ToJSON]
  · simp only [Message.ToJSON, List.append_assoc, List.singleton_append]
    exact ReadString_line 10 _ rest hm
  · simp only [Response.ToJSON, List.count_append, List.count_eq_zero_of_not_mem hr]
    rfl
  · simp [Response.ToJSON]
  · simp only [Response.ToJSON, List.append_assoc, List.singleton_append]
    exact ReadString_line 10 _ rest hr

/-! ## What `FromJSON` accepts -/

theorem expect_append (l rest : List Nat) : json.expect l (l ++ rest) = some rest := by
  induction l with
  | nil => cases rest <;> rfl
  | cons a l ih =>
    rw [List.cons_append, json.expect, if_pos rfl]
    exact ih

theorem saveError_of_some (d : json.Decoded) (e : json.Error) (h : d.savedError ≠ none) :
    d.saveError e = d := by
  unfold json.Decoded.saveError
  cases hd : d.savedError with
  | none => exact absurd hd h
  | some x => rfl

theorem quit_validates (m : Message) (h : m.Command = CmdQuit) : m.Validate = none := by
  have a : CmdQuit ≠ [] := by decide
  have b : CmdQuit ∈ [CmdEcho, CmdRegister, CmdMessage, CmdListUsers, CmdListMessages,
      CmdTime, CmdQuit] := by decide
  have c : CmdQuit ∉ [CmdEcho, CmdRegister, CmdMessage] := by decide
  rw [validate_eq, h, if_neg a, if_neg (not_not.mpr b), if_neg (fun h => c h.1)]

/-- A pass of the loop ends the loop exactly when the command of the message the
decoder left, whether or not the decoder returned an error, is QUIT. -/
theorem handleLine_leaves_iff (s : Server) (client : Conn) (line : GoString) (now : Time) :
    (handleLine s client line none now).2 = false ↔
      (Message.zero.FromJSON line).1.Command = CmdQuit := by
  have hl : (handleLine s client line none now).2 =
      (handleMessage s client line none now).2.2 := by
    simp [handleLine]
  rw [hl]
  cases hv : (Message.zero.FromJSON line).1.Validate with
  | some e =>
    rw [handleMessage_invalid s client line now e hv]
    constructor
    · intro h; simp at h
    · intro h
      rw [quit_validates _ h] at hv
      simp at hv
  | none =>
    rw [handleMessage_valid s client line now hv]
    simp

/-- When the decoded command is QUIT the worker sends the one reply "Goodbye!", the
loop returns, and the deferred cleanup closes the connection and deletes it from the
map; no later input is read. -/
theorem handleLoop_quit (s : Server) (client : Conn) (line : GoString) (now : Time)
    (rest : List (GoString × Option GoString × Time))
    (h : (Message.zero.FromJSON line).1.Command = CmdQuit) :
    handleLoop s client ((line, none, now) :: rest) =
      (cleanup (sendResponse s client (NewResponse true (goStr "Goodbye!") [])) client,
        true) := by
  have hv := quit_validates _ h
  have q1 : CmdQuit ≠ CmdEcho := by decide
  have q2 : CmdQuit ≠ CmdRegister := by decide
  have q3 : CmdQuit ≠ CmdMessage := by decide
  have q4 : CmdQuit ≠ CmdListUsers := by decide
  have q5 : CmdQuit ≠ CmdListMessages := by decide
  have q6 : CmdQuit ≠ CmdTime := by decide
  have hp : processCommand s client (Message.zero.FromJSON line).1 now =
      (s, NewResponse true (goStr "Goodbye!") []) := by
    simp [processCommand, h, q1, q2, q3, q4, q5, q6]
  have hm := handleMessage_valid s client line now hv
  rw [hp, h] at hm
  simp [handleLoop, handleLine, hm]

/-- C13: the code at a QUIT request that is malformed. On the line
`{"command":"QUIT","data":5}` the decoder returns a type error, yet the worker
answers "Goodbye!", leaves its loop without reading the next line, closes the
connection and deletes it from the map; in general a pass of the loop ends the loop
exactly when the command the decoder left is QUIT, whether or not decoding failed. -/
theorem malformed_quit_closes_connection :
    (Message.zero.FromJSON (goStr "\x7b\"command\":\"QUIT\",\"data\":5\x7d\n")).2 =
      some (json.Error.UnmarshalTypeError "number") ∧
    (handleLine (handleClientStart (acceptConnection NewServer 1) 1) 1
      (goStr "\x7b\"command\":\"QUIT\",\"data\":5\x7d\n") none noon).2 = false ∧
    (handleClient (acceptConnection NewServer 1) 1
      [(goStr "\x7b\"command\":\"QUIT\",\"data\":5\x7d\n", none, noon),
       (goStr "\x7b\"command\":\"TIME\"\x7d\n", none, noon)]).2 = true ∧
    (handleClient (acceptConnection NewServer 1) 1
      [(goStr "\x7b\"command\":\"QUIT\",\"data\":5\x7d\n", none, noon),
       (goStr "\x7b\"command\":\"TIME\"\x7d\n", none, noon)]).1.closed = [1] ∧
    (handleClient (acceptConnection NewServer 1) 1
      [(goStr "\x7b\"command\":\"QUIT\",\"data\":5\x7d\n", none, noon),
       (goStr "\x7b\"command\":\"TIME\"\x7d\n", none, noon)]).1.clients = [] ∧
    (handleClient (acceptConnection NewServer 1) 1
      [(goStr "\x7b\"command\":\"QUIT\",\"data\":5\x7d\n", none, noon),
       (goStr "\x7b\"command\":\"TIME\"\x7d\n", none, noon)]).1.sentTo 1 =
      [(NewResponse true (goStr "Welcome to TCP/IP Educational Server!") []).ToJSON.1,
       (NewResponse true (goStr "Goodbye!") []).ToJSON.1] ∧
    (∀ (s : Server) (client : Conn) (line : GoString) (now : Time),
      (handleLine s client line none now).2 = false ↔
        (Message.zero.FromJSON line).1.Command = CmdQuit) := by
  refine ⟨by decide, by decide, by decide, by decide, by decide, by decide, ?_⟩
  intro s client line now
  exact handleLine_leaves_iff s client line now

/-! ## The registry -/

/-- C14: removing a connection from the map a second time leaves the map, and the
client objects, exactly as they were after the first removal; after a removal the
connection is not in the map; and removing a connection that is not in the map leaves
the map unchanged. The removal is Go's `delete`, which has no failing case. -/
theorem cleanup_removal_idempotent (s : Server) (client : Conn) :
    (cleanup (cleanup s client) client).clients = (cleanup s client).clients ∧
    (cleanup (cleanup s client) client).username = (cleanup s client).username ∧
    (cleanup (cleanup s client) client).messages = (cleanup s client).messages ∧
    client ∉ (cleanup s client).clients ∧
    (client ∈ s.clients ∨ (cleanup s client).clients = s.clients) ∧
    (∀ c : Conn, c ∈ (cleanup s client).clients ↔ c ∈ s.clients ∧ c ≠ client) := by
  refine ⟨?_, rfl, rfl, ?_, ?_, ?_⟩
  · simp [cleanup, List.filter_filter]
  · simp [cleanup]
  · by_cases h : client ∈ s.clients
    · exact Or.inl h
    · right
      simp only [cleanup]
      rw [List.filter_eq_self]
      intro a ha
      have : a ≠ client := fun e => h (e ▸ ha)
      simpa using this
  · intro c
    simp [cleanup]

/-! ## The frame of dispatch -/

/-- C15: what `processCommand` changes. ECHO, LIST_USERS, LIST_MESSAGES, TIME and
QUIT leave the whole server as it was; REGISTER leaves the history and the map and
changes the username of the issuing client only; MESSAGE leaves every username and the
map and changes the history only (by one `storeMessage`); and no command, known or
not, changes the set of connections in the map. -/
theorem processCommand_frame (s : Server) (client : Conn) (d f : GoString) (now : Time) :
    (processCommand s client ⟨CmdEcho, d, f⟩ now).1 = s ∧
    (processCommand s client ⟨CmdListUsers, d, f⟩ now).1 = s ∧
    (processCommand s client ⟨CmdListMessages, d, f⟩ now).1 = s ∧
    (processCommand s client ⟨CmdTime, d, f⟩ now).1 = s ∧
    (processCommand s client ⟨CmdQuit, d, f⟩ now).1 = s ∧
    ((processCommand s client ⟨CmdRegister, d, f⟩ now).1.messages = s.messages ∧
      (processCommand s client ⟨CmdRegister, d, f⟩ now).1.clients = s.clients ∧
      (∀ c : Conn, (processCommand s client ⟨CmdRegister, d, f⟩ now).1.username c =
        if c = client then d else s.username c)) ∧
    ((processCommand s client ⟨CmdMessage, d, f⟩ now).1.username = s.username ∧
      (processCommand s client ⟨CmdMessage, d, f⟩ now).1.clients = s.clients ∧
      (processCommand s client ⟨CmdMessage, d, f⟩ now).1.messages =
        (storeMessage s (s.username client) d now).messages) ∧
    (∀ m : Message, (processCommand s client m now).1.clients = s.clients) := by
  have hstore : ∀ (a b : GoString), (storeMessage s a b now).clients = s.clients ∧
      (storeMessage s a b now).username = s.username := by
    intro a b
    unfold storeMessage
    simp only
    split_ifs <;> exact ⟨rfl, rfl⟩
  refine ⟨?_, ?_, ?_, ?_, ?_, ⟨?_, ?_, ?_⟩, ⟨?_, ?_, ?_⟩, ?_⟩
  · simp [processCommand]
  · have l1 : CmdListUsers ≠ CmdEcho := by decide
    have l2 : CmdListUsers ≠ CmdRegister := by decide
    have l3 : CmdListUsers ≠ CmdMessage := by decide
    simp [processCommand, l1, l2, l3]
  · have l1 : CmdListMessages ≠ CmdEcho := by decide
    have l2 : CmdListMessages ≠ CmdRegister := by decide
    have l3 : CmdListMessages ≠ CmdMessage := by decide
    have l4 : CmdListMessages ≠ CmdListUsers := by decide
    simp [processCommand, l1, l2, l3, l4]
  · have l1 : CmdTime ≠ CmdEcho := by decide
    have l2 : CmdTime ≠ CmdRegister := by decide
    have l3 : CmdTime ≠ CmdMessage := by decide
    have l4 : CmdTime ≠ CmdListUsers := by decide
    have l5 : CmdTime ≠ CmdListMessages := by decide
    simp [processCommand, l1, l2, l3, l4, l5]
  · have l1 : CmdQuit ≠ CmdEcho := by decide
    have l2 : CmdQuit ≠ CmdRegister := by decide
    have l3 : CmdQuit ≠ CmdMessage := by decide
    have l4 : CmdQuit ≠ CmdListUsers := by decide
    have l5 : CmdQuit ≠ CmdListMessages := by decide
    have l6 : CmdQuit ≠ CmdTime := by decide
    simp [processCommand, l1, l2, l3, l4, l5, l6]
  · have l1 : CmdRegister ≠ CmdEcho := by decide
    simp [processCommand, l1]
  · have l1 : CmdRegister ≠ CmdEcho := by decide
    simp [processCommand, l1]
  · intro c
    have l1 : CmdRegister ≠ CmdEcho := by decide
    simp [processCommand, l1]
  · have l1 : CmdMessage ≠ CmdEcho := by decide
    have l2 : CmdMessage ≠ CmdRegister := by decide
    simp [processCommand, l1, l2, (hstore _ _).2]
  · have l1 : CmdMessage ≠ CmdEcho := by decide
    have l2 : CmdMessage ≠ CmdRegister := by decide
    simp [processCommand, l1, l2, (hstore _ _).1]
  · have l1 : CmdMessage ≠ CmdEcho := by decide
    have l2 : CmdMessage ≠ CmdRegister := by decide
    simp [processCommand, l1, l2]
  · intro m
    unfold processCommand
    split_ifs <;> first
      | rfl
      | exact (hstore _ _).1
